import Mathlib

/-!
# exago-svc: repository data cache, import dedup and rank cache

A shallow embedding of the parts of `exago-svc` that the cache and
aggregation contract talks about:

* `src/repository/data.go`  : `GetImports` (dedup block), `cacheKey`
* `src/repository/repository.go` : `IsCached`, `ClearCache`, `Load`
* `src/rank/rank.go` : `stripEnvelope`, `loadData`, `GetScore`, `save`,
  `GetRankFromCache`
* `src/server/server.go` : `RepositoryChecker.RunAll`

Go strings and byte slices are modelled as `List Char`.  Every pattern and
marker the code searches for is ASCII, so searching characters and searching
bytes find the same positions.
-/

namespace Exago

/-- A Go `string` / `[]byte`. -/
abbrev GoString := List Char

/-- Go `error` values that the modelled code creates or passes through. -/
inductive Err where
  | errMissingData
  | errRoutineTimeout
  | gzipHeader
  | eof
  | unexpectedEOF
  | other (msg : String)
  deriving DecidableEq, Repr

/-! ## Regular expression of `GetImports` (`src/repository/data.go:87`) -/

/-- One element of an anchored pattern: a literal character, or a greedy
`+` repetition of a character class. -/
inductive Item where
  | lit (c : Char)
  | plus (cls : Char → Bool)

/-- Perl class `\w` of Go's `regexp`: `[0-9A-Za-z_]`. -/
def isWord (c : Char) : Bool :=
  ('0' ≤ c && c ≤ '9') || ('A' ≤ c && c ≤ 'Z') || c == '_' || ('a' ≤ c && c ≤ 'z')

/-- Perl class `\d` of Go's `regexp`: `[0-9]`. -/
def isDigit (c : Char) : Bool := '0' ≤ c && c ≤ '9'

/-- Class `[\w\d\.]` of the first group. -/
def hostClass (c : Char) : Bool := isWord c || isDigit c || c == '.'

/-- Class `[\w\d\-]` of the second and third group. -/
def nameClass (c : Char) : Bool := isWord c || isDigit c || c == '-'

/-- Anchored leftmost-first matching of a pattern at the start of `s`;
returns the matched text.  A greedy `+` first tries the longest run of its
class and backtracks to shorter non-empty runs. -/
def matchItems : List Item → GoString → Option GoString
  | [], _ => some []
  | Item.lit c :: rest, s =>
    match s with
    | [] => none
    | x :: xs => if x = c then (matchItems rest xs).map (fun m => x :: m) else none
  | Item.plus cls :: rest, s =>
    (List.range (s.takeWhile cls).length).reverse.findSome? fun k =>
      (matchItems rest (s.drop (k + 1))).map (fun m => s.take (k + 1) ++ m)

/-- The pattern `^([\w\d\.]+)/([\w\d\-]+)/([\w\d\-]+)`. -/
def importPattern : List Item :=
  [Item.plus hostClass, Item.lit '/', Item.plus nameClass, Item.lit '/', Item.plus nameClass]

/-- The element `m[0]` of `reg.FindStringSubmatch(im)`: the whole matched
text, or `none` when the result is `nil`. -/
def findStringSubmatch0 (im : GoString) : Option GoString :=
  matchItems importPattern im

/-- The key under which the loop of `GetImports` files the import `im`:
`m[0]` when `len(m) > 0`, else `im`. -/
def norm (im : GoString) : GoString :=
  match findStringSubmatch0 im with
  | some m0 => m0
  | none => im

/-! ## The `filtered` map and the dedup loop -/

/-- Assignment `m[k] = v` on a Go map kept as an association list with one
entry per key. -/
def mapSet {β : Type} (m : List (GoString × β)) (k : GoString) (v : β) : List (GoString × β) :=
  match m with
  | [] => [(k, v)]
  | (k', v') :: rest => if k' = k then (k, v) :: rest else (k', v') :: mapSet rest k v

/-- The keys of a Go map. -/
def mapKeys (m : List (GoString × Nat)) : List GoString := m.map Prod.fst

/-- First loop of the dedup block: `filtered[m[0]] = 1` or `filtered[im] = 1`
for every import. -/
def filteredImports (imports : List GoString) : List (GoString × Nat) :=
  imports.foldl (fun filtered im => mapSet filtered (norm im) 1) []

/-- Go leaves the order of `for im := range filtered` unspecified: an
iteration visits every key exactly once, in some order. -/
def MapRange (m : List (GoString × Nat)) (visited : List GoString) : Prop :=
  visited.Perm (mapKeys m)

/-- The value `GetImports` assigns to `r.Imports` on the cache-miss path, for
a given iteration order of the second loop. -/
def IsDedupedImports (imports out : List GoString) : Prop :=
  MapRange (filteredImports imports) out

/-- The dedup block with the map iterated in insertion order. -/
def dedupeImports (imports : List GoString) : List GoString :=
  mapKeys (filteredImports imports)


/-- The path `p` has at least three `/`-separated segments and its first
three are `s1`, `s2`, `s3`. -/
def HasFirstSegments (p s1 s2 s3 : GoString) : Prop :=
  '/' ∉ s1 ∧ '/' ∉ s2 ∧ '/' ∉ s3 ∧
    ∃ tail : GoString, (tail = [] ∨ tail.head? = some '/') ∧
      p = s1 ++ '/' :: (s2 ++ '/' :: (s3 ++ tail))

/-! ## Cache keys (`src/repository/data.go:186`) -/

/-- The receiver fields of `Repository` that the key scheme reads. -/
structure Repository where
  Name : GoString
  Branch : GoString
  deriving DecidableEq, Repr

/-- The method `cacheKey`: `fmt.Sprintf("%s-%s-%s", r.Name, r.Branch, suffix)`. -/
def Repository.cacheKey (r : Repository) (suffix : GoString) : GoString :=
  r.Name ++ "-".toList ++ r.Branch ++ "-".toList ++ suffix

/-- Modelled from the spec: the values of the constants `model.ImportsName`,
`model.CodeStatsName`, `model.TestResultsName`, `model.LintMessagesName`,
`model.ScoreName`, `model.MetadataName` (package `model` is not among the
sources), followed by the literals `"date"` and `"executiontime"` of
`data.go`: the eight category names. -/
def categories : List GoString :=
  ["imports".toList, "codestats".toList, "testresults".toList, "lintmessages".toList,
   "score".toList, "metadata".toList, "date".toList, "executiontime".toList]

/-! ## Key-value store and the cache predicates (`src/repository/repository.go`) -/

/-- Modelled from the spec: package `leveldb` is not among the sources.  The
store of spec section 4.1 holds one value per key and offers point
get/put/delete, enumeration of the entries under a key prefix and deletion of
the entries under a key prefix.  Reads and writes can fail with a store
error. -/
structure DB where
  entries : List (GoString × GoString)
  readErr : Option Err
  writeErr : Option Err

/-- The keys present in the store. -/
def DB.keys (db : DB) : List GoString := db.entries.map Prod.fst

/-- A store holds one value per key. -/
def DB.WellFormed (db : DB) : Prop := db.keys.Nodup

/-- Modelled from the spec: `findAllWithPrefix(prefix) -> list of bytes`, the
values of all entries whose key starts with `pfx`. -/
def DB.FindAllForRepository (db : DB) (pfx : GoString) : Except Err (List GoString) :=
  match db.readErr with
  | some e => Except.error e
  | none => Except.ok ((db.entries.filter (fun kv => pfx.isPrefixOf kv.1)).map Prod.snd)

/-- Modelled from the spec: `deleteAllWithPrefix(prefix) -> ok | error`, which
removes every entry whose key starts with `pfx`. -/
def DB.DeleteAllMatchingPrefix (db : DB) (pfx : GoString) : Except Err DB :=
  match db.writeErr with
  | some e => Except.error e
  | none => Except.ok { db with entries := db.entries.filter (fun kv => !pfx.isPrefixOf kv.1) }

/-- Modelled from the spec: `delete(key) -> ok | error`, which removes the entry
of `key` if there is one. -/
def DB.Delete (db : DB) (key : GoString) : Except Err DB :=
  match db.writeErr with
  | some e => Except.error e
  | none => Except.ok { db with entries := db.entries.filter (fun kv => !(kv.1 == key)) }

/-- The local `prefix` of `IsCached` and `ClearCache`:
`fmt.Sprintf("%s-%s", r.Name, r.Branch)`. -/
def Repository.keyStart (r : Repository) : GoString :=
  r.Name ++ "-".toList ++ r.Branch

/-- The method `IsCached`: false on a store error or when the number of
entries found under the prefix is not 8. -/
def Repository.IsCached (r : Repository) (db : DB) : Bool :=
  match db.FindAllForRepository r.keyStart with
  | Except.error _ => false
  | Except.ok data => if data.length ≠ 8 then false else true

/-- The method `ClearCache`: deletes everything under the prefix. -/
def Repository.ClearCache (r : Repository) (db : DB) : Except Err DB :=
  db.DeleteAllMatchingPrefix r.keyStart

/-- A store content with the eight category keys of `r` written. -/
def Repository.fullEntries (r : Repository) (v : GoString) : List (GoString × GoString) :=
  categories.map (fun c => (r.cacheKey c, v))

/-- A sample identifier: `github.com/o/p` on the default branch. -/
def sampleRepo : Repository := ⟨"github.com/o/p".toList, []⟩

/-- A sample store: the eight keys of `github.com/o/p` and the eight keys of
`github.com/o/q`. -/
def sampleStore : DB :=
  ⟨sampleRepo.fullEntries "1".toList ++
    Repository.fullEntries ⟨"github.com/o/q".toList, []⟩ "1".toList, none, none⟩

/-! ## Envelope stripping (`src/rank/rank.go:133`) -/

/-- The call `strings.Replace(s, old, new, 1)`: the first occurrence of `old`
in `s` is replaced by `new`; `s` is returned unchanged when there is none. -/
def Replace1 (old new : GoString) : GoString → GoString
  | [] => if old = [] then new else []
  | c :: cs =>
    if old.isPrefixOf (c :: cs) then new ++ (c :: cs).drop old.length
    else c :: Replace1 old new cs

/-- The opening of the envelope, `{"data":`. -/
def envelopeOpen : GoString := "\x7b\"data\":".toList

/-- The closing of the envelope, `,"status":"success"}`. -/
def envelopeClose : GoString := ",\"status\":\"success\"\x7d".toList

/-- The function `stripEnvelope`. -/
def stripEnvelope (data : GoString) : GoString :=
  Replace1 envelopeClose [] (Replace1 envelopeOpen [] data)

/-! ## Redis hash and the rank cache (`src/rank/rank.go`) -/

/-- The connection `rk.conn` as the commands of `rank.go` see it: the fields
stored in the hash of each key, and the error with which every command fails
while the connection is broken. -/
structure Conn where
  hash : GoString → GoString → Option GoString
  connErr : Option Err

/-- The call `conn.Do("HGET", key, field)`: reply and error.  The reply is
`nil` when the field does not exist and when the command fails. -/
def Conn.HGET (c : Conn) (key field : GoString) : Option GoString × Option Err :=
  match c.connErr with
  | some e => (none, some e)
  | none => (c.hash key field, none)

/-- The call `conn.Do("HSET", key, field, value)`: error and the connection
afterwards. -/
def Conn.HSET (c : Conn) (key field value : GoString) : Option Err × Conn :=
  match c.connErr with
  | some e => (some e, c)
  | none =>
    (none, { c with hash := fun k f => if k = key ∧ f = field then some value else c.hash k f })

/-- Modelled from the spec: the type `Score` of package `rank` is not among
the sources; the spec gives it a numeric value and a letter rank. -/
structure Score where
  Value : Int
  Rank : GoString
  deriving DecidableEq, Repr

/-- The struct `Rank`, with the type of `testRunner` values left open. -/
structure Rank (T : Type) where
  repository : GoString
  loc : List (GoString × Int)
  imports : List GoString
  tests : T
  Score : Score

/-- Library and absent functions that `rank.go` calls: the body of the gzip
decoder, `json.Unmarshal` at the three target types, and `calcScore` (defined
in a file of package `rank` that is not among the sources). -/
structure RankEnv (T : Type) where
  inflate : GoString → Except Err GoString
  unmarshalLoc : GoString → Except Err (List (GoString × Int))
  unmarshalImports : GoString → Except Err (List GoString)
  unmarshalTests : GoString → Except Err T
  calcScore : Rank T → Score

/-- The function `gzipDecode`.  `gzip.NewReader` reads the 10-byte member
header: it fails with `io.EOF` on empty input, with `io.ErrUnexpectedEOF` when
the input ends inside the header, and with `gzip.ErrHeader` when the input does
not start with the bytes `0x1f 0x8b 0x08`; `inflate` is the rest of the
decoding. -/
def gzipDecode (inflate : GoString → Except Err GoString) (data : GoString) :
    Except Err GoString :=
  if data.length = 0 then Except.error Err.eof
  else if data.length < 10 then Except.error Err.unexpectedEOF
  else if (data.take 3).map Char.toNat ≠ [0x1f, 0x8b, 8] then Except.error Err.gzipHeader
  else inflate data

/-- The keys of the map `required`. -/
def required : List GoString := ["loc".toList, "imports".toList, "test".toList]

/-- The method `GetRankFromCache`. -/
def Rank.GetRankFromCache {T : Type} (env : RankEnv T) (rk : Rank T) (c : Conn) :
    Except Err GoString :=
  match c.HGET rk.repository "rank".toList with
  | (none, _) => Except.error Err.errMissingData
  | (some _, some e) => Except.error e
  | (some o, none) =>
    match gzipDecode env.inflate o with
    | Except.error e => Except.error e
    | Except.ok b => Except.ok b

/-- The loop of `loadData` over the keys of `required`, visited in the order
`order`. -/
def Rank.loadDataLoop {T : Type} (env : RankEnv T) (rk : Rank T) (c : Conn) :
    List GoString → List (GoString × GoString) → Except Err (List (GoString × GoString))
  | [], data => Except.ok data
  | idfr :: rest, data =>
    match c.HGET rk.repository idfr with
    | (none, _) => Except.error Err.errMissingData
    | (some _, some e) => Except.error e
    | (some o, none) =>
      match gzipDecode env.inflate o with
      | Except.error e => Except.error e
      | Except.ok b => Rank.loadDataLoop env rk c rest (mapSet data idfr b)

/-- The method `loadData`; `order` is the order in which Go happens to range
over the map `required`. -/
def Rank.loadData {T : Type} (env : RankEnv T) (rk : Rank T) (c : Conn)
    (order : List GoString) : Except Err (List (GoString × GoString)) :=
  Rank.loadDataLoop env rk c order []

/-- The method `save`. -/
def Rank.save {T : Type} (rk : Rank T) (c : Conn) : Option Err × Conn :=
  c.HSET rk.repository "rank".toList rk.Score.Rank

/-- Indexing `data[k]` of a Go map of byte slices: `nil` when `k` is absent. -/
def mapGet (m : List (GoString × GoString)) (k : GoString) : GoString :=
  match m.find? (fun kv => kv.1 == k) with
  | some kv => kv.2
  | none => []

/-- The method `deserialize`. -/
def Rank.deserialize {T : Type} (env : RankEnv T) (rk : Rank T)
    (data : List (GoString × GoString)) : Except Err (Rank T) :=
  match env.unmarshalLoc (stripEnvelope (mapGet data "loc".toList)) with
  | Except.error e => Except.error e
  | Except.ok loc =>
    match env.unmarshalImports (stripEnvelope (mapGet data "imports".toList)) with
    | Except.error e => Except.error e
    | Except.ok imports =>
      match env.unmarshalTests (stripEnvelope (mapGet data "test".toList)) with
      | Except.error e => Except.error e
      | Except.ok tests => Except.ok { rk with loc := loc, imports := imports, tests := tests }

/-- The method `GetScore`: the returned value (`rk` or an error) and the
connection afterwards. -/
def Rank.GetScore {T : Type} (env : RankEnv T) (rk : Rank T) (c : Conn)
    (order : List GoString) : Except Err (Rank T) × Conn :=
  match rk.loadData env c order with
  | Except.error e => (Except.error e, c)
  | Except.ok data =>
    match rk.deserialize env data with
    | Except.error e => (Except.error e, c)
    | Except.ok rk1 =>
      match Rank.save { rk1 with Score := env.calcScore rk1 } c with
      | (some e, c') => (Except.error e, c')
      | (none, c') => (Except.ok { rk1 with Score := env.calcScore rk1 }, c')

/-- A sample connection: a healthy connection whose hash of `github.com/o/p`
holds the fields `loc` and `imports` but no `test`. -/
def sampleConn : Conn :=
  ⟨fun k f => if k = "github.com/o/p".toList ∧ (f = "loc".toList ∨ f = "imports".toList)
    then some "x".toList else none, none⟩

/-- A sample environment in which every library call succeeds. -/
def sampleEnv : RankEnv Unit :=
  ⟨fun d => Except.ok d, fun _ => Except.ok [], fun _ => Except.ok [], fun _ => Except.ok (),
    fun _ => ⟨0, "A".toList⟩⟩

/-- A sample `Rank` for the repository `github.com/o/p`. -/
def sampleRank : Rank Unit := ⟨"github.com/o/p".toList, [], [], (), ⟨0, []⟩⟩

/-! ## Loading a record (`src/repository/repository.go:76`) -/

/-- The eight getters that `Load` calls. -/
inductive Getter where
  | GetImports
  | GetCodeStats
  | GetLintMessages
  | GetTestResults
  | GetScore
  | GetMetadata
  | GetLastUpdate
  | GetExecutionTime
  deriving DecidableEq, Repr

/-- The state the getters work on (record fields and store), together with
the log of the getter calls made so far. -/
structure Traced (σ : Type) where
  state : σ
  calls : List Getter

/-- One getter call.  A getter is a state transformer that returns an
optional error (its data result is discarded by `Load`); the call is
logged. -/
def callGetter {σ : Type} (get : Getter → σ → Option Err × σ) (g : Getter) (w : Traced σ) :
    Option Err × Traced σ :=
  ((get g w.state).1, ⟨(get g w.state).2, w.calls ++ [g]⟩)

/-- The method `Load`. -/
def Load {σ : Type} (get : Getter → σ → Option Err × σ) (w : Traced σ) :
    Option Err × Traced σ :=
  match callGetter get Getter.GetImports w with
  | (some err, w1) => (some err, w1)
  | (none, w1) =>
  match callGetter get Getter.GetCodeStats w1 with
  | (some err, w2) => (some err, w2)
  | (none, w2) =>
  match callGetter get Getter.GetLintMessages w2 with
  | (some err, w3) => (some err, w3)
  | (none, w3) =>
  match callGetter get Getter.GetTestResults w3 with
  | (some err, w4) => (some err, w4)
  | (none, w4) =>
  match callGetter get Getter.GetScore w4 with
  | (some err, w5) => (some err, w5)
  | (none, w5) =>
  match callGetter get Getter.GetMetadata w5 with
  | (some err, w6) => (some err, w6)
  | (none, w6) =>
  match callGetter get Getter.GetLastUpdate w6 with
  | (some err, w7) => (some err, w7)
  | (none, w7) =>
  match callGetter get Getter.GetExecutionTime w7 with
  | (some err, w8) => (some err, w8)
  | (none, w8) => (none, w8)

/-- The order the contract names: Imports, CodeStats, LintMessages,
TestResults, Score, Metadata, LastUpdate, ExecutionTime. -/
def loadOrder : List Getter :=
  [Getter.GetImports, Getter.GetCodeStats, Getter.GetLintMessages, Getter.GetTestResults,
   Getter.GetScore, Getter.GetMetadata, Getter.GetLastUpdate, Getter.GetExecutionTime]

/-- The state reached once the getters `gs` have run one after the other from
`s`. -/
def stateAfter {σ : Type} (get : Getter → σ → Option Err × σ) (gs : List Getter) (s : σ) : σ :=
  gs.foldl (fun st g => (get g st).2) s

/-- Running a list of getters in order, stopping at the first error. -/
def runGetters {σ : Type} (get : Getter → σ → Option Err × σ) :
    List Getter → Traced σ → Option Err × Traced σ
  | [], w => (none, w)
  | g :: gs, w =>
    match callGetter get g w with
    | (some err, w1) => (some err, w1)
    | (none, w1) => runGetters get gs w1

/-- Sample getters on a call counter: every getter succeeds except
`GetLintMessages`. -/
def sampleGet (g : Getter) (n : Nat) : Option Err × Nat :=
  (if g = Getter.GetLintMessages then some (Err.other "lint") else none, n + 1)

/-! ## Aggregation (`src/server/server.go:57`) -/

/-- What travels over the channel `rc.data` and is stored in `rc.output`: a
fetched category value, an error, or the `nil` interface. -/
inductive Out where
  | value (v : GoString)
  | error (e : Err)
  | nil
  deriving DecidableEq, Repr

/-- The behaviour of one getter call made from a goroutine: it returns `out`
after `delay` time units, or never returns (`none`). -/
abbrev Fetch := Option (Nat × Out)

/-- The four getters of `rc.repository` that the goroutines call. -/
structure Producers where
  GetImports : Fetch
  GetCodeStats : Fetch
  GetTestResults : Fetch
  GetLintMessages : Fetch

/-- The body of the goroutine started for `tp`: the `switch tp` and the send
on `rc.data`.  For a name outside the four cases `out` and `err` stay `nil`
and `nil` is sent at once. -/
def worker (p : Producers) (tp : GoString) : Fetch :=
  if tp = "imports".toList then p.GetImports
  else if tp = "codestats".toList then p.GetCodeStats
  else if tp = "testresults".toList then p.GetTestResults
  else if tp = "lintmessages".toList then p.GetLintMessages
  else some (0, Out.nil)

/-- The state of `RunAll` between two iterations: the clock, the messages
on (or on their way to) the channel `rc.data` with the instant at which each
is sent, the map `rc.output` and the counter `i`.  The channel has capacity
10 and every goroutine sends once, so with at most ten types no send blocks. -/
structure Checker where
  now : Nat
  data : List (Nat × Out)
  output : List (GoString × Out)
  i : Nat
  deriving DecidableEq, Repr

/-- The message a receive on `rc.data` gets: the one sent first (of two sent
at the same instant, the one of the goroutine started first), and the
messages left. -/
def popEarliest : List (Nat × Out) → Option ((Nat × Out) × List (Nat × Out))
  | [] => none
  | m :: rest =>
    match popEarliest rest with
    | none => some (m, [])
    | some (m', rest') => if m.1 ≤ m'.1 then some (m, rest) else some (m', m :: rest')

/-- One iteration of the loop of `RunAll` for the type `tp`: start the
goroutine, then `select` between a receive on `rc.data` and the timer
`time.After(bound)`.  A message is received when it is sent before the timer
fires. -/
def runOne (bound : Nat) (p : Producers) (rc : Checker) (tp : GoString) : Checker :=
  let data := match worker p tp with
    | some (d, o) => rc.data ++ [(rc.now + d, o)]
    | none => rc.data
  match popEarliest data with
  | some ((t, o), rest) =>
    if t < rc.now + bound then
      match o with
      | Out.error e =>
        { now := max rc.now t, data := rest, output := mapSet rc.output tp (Out.error e),
          i := rc.i }
      | out =>
        { now := max rc.now t, data := rest, output := mapSet rc.output tp out, i := rc.i + 1 }
    else
      { now := rc.now + bound, data := data,
        output := mapSet rc.output tp (Out.error Err.errRoutineTimeout), i := rc.i }
  | none =>
    { now := rc.now + bound, data := data,
      output := mapSet rc.output tp (Out.error Err.errRoutineTimeout), i := rc.i }

/-- The method `RunAll`, started at time 0 with an empty channel and an empty
output map: the final state and whether `true` was sent on `rc.dataLoaded`. -/
def RunAll (bound : Nat) (p : Producers) (types : List GoString) : Checker × Bool :=
  let rc := types.foldl (runOne bound p) ⟨0, [], [], 0⟩
  (rc, rc.i == types.length)

/-- The types `repositoryHandler` passes to `RunAll`. -/
def handlerTypes : List GoString :=
  ["imports".toList, "codestats".toList, "testresults".toList, "lintmessages".toList]

/-- The outcome that belongs to the category `tp` itself under the wait bound
`bound`: what its getter returns when it returns in time, the timeout error
otherwise. -/
def ownOutcome (bound : Nat) (p : Producers) (tp : GoString) : Out :=
  match worker p tp with
  | some (d, o) => if d < bound then o else Out.error Err.errRoutineTimeout
  | none => Out.error Err.errRoutineTimeout

/-- Reading `rc.output[tp]`. -/
def outputAt (output : List (GoString × Out)) (tp : GoString) : Option Out :=
  (output.find? (fun kv => kv.1 == tp)).map Prod.snd

/-- Sample producers, in seconds: `GetImports` returns its value after 301 s,
the other three getters return theirs after 10 s. -/
def lateImports : Producers :=
  ⟨some (301, Out.value "I".toList), some (10, Out.value "C".toList),
   some (10, Out.value "T".toList), some (10, Out.value "L".toList)⟩

/-! ## Category getters (`src/repository/data.go:71`) -/

/-- Equality of results `(value, error)` is decidable when it is so for values
and for errors. -/
instance decEqExcept {ε α : Type} [DecidableEq ε] [DecidableEq α] : DecidableEq (Except ε α) :=
  fun a b =>
    match a, b with
    | Except.error x, Except.error y =>
      if h : x = y then isTrue (congrArg Except.error h)
      else isFalse (fun hc => h (Except.error.inj hc))
    | Except.ok x, Except.ok y =>
      if h : x = y then isTrue (congrArg Except.ok h)
      else isFalse (fun hc => h (Except.ok.inj hc))
    | Except.error _, Except.ok _ => isFalse (fun hc => Except.noConfusion hc)
    | Except.ok _, Except.error _ => isFalse (fun hc => Except.noConfusion hc)

/-- Modelled from the spec: `get(key) -> bytes | absent`, the function
`leveldb.FindForRepositoryCmd` of the absent package `leveldb`.  Absence is a
result (`nil` data, no error), a failed read is an error. -/
def DB.FindForRepositoryCmd (db : DB) (key : GoString) : Except Err (Option GoString) :=
  match db.readErr with
  | some e => Except.error e
  | none => Except.ok ((db.entries.find? (fun kv => kv.1 == key)).map Prod.snd)

/-- Modelled from the spec: `put(key, bytes) -> ok | error`, the function
`leveldb.Save` of the absent package `leveldb`. -/
def DB.Save (db : DB) (key value : GoString) : Except Err DB :=
  match db.writeErr with
  | some e => Except.error e
  | none => Except.ok { db with entries := mapSet db.entries key value }

/-- Modelled from the spec: the constant `model.ImportsName`. -/
def ImportsName : GoString := "imports".toList

/-- Modelled from the spec: the constant `model.CodeStatsName`. -/
def CodeStatsName : GoString := "codestats".toList

/-- Modelled from the spec: the constant `model.TestResultsName`. -/
def TestResultsName : GoString := "testresults".toList

/-- Modelled from the spec: the constant `model.LintMessagesName`. -/
def LintMessagesName : GoString := "lintmessages".toList

/-- What the getters call outside `data.go`: the producers of package
`lambda`, `json.Marshal` and `json.Unmarshal` at the four category types, and
the order in which Go ranges over the map `filtered`.  The types of code
statistics, test results and lint messages are left open.

A call `json.Unmarshal(data, &field)` decodes in place: it is given the bytes
and the current content of the field, and yields either the decoded value,
which the field then holds, or the error together with what the decoder has
left in the field (a type error is reported after the decoder has filled what
it could; a syntax error is found before anything is written). -/
structure GetterEnv (CS TR LM : Type) where
  lambdaGetImports : GoString → Except Err (List GoString)
  lambdaGetCodeStats : GoString → Except Err CS
  lambdaGetTestResults : GoString → Except Err TR
  lambdaGetLintMessages : GoString → List GoString → Except Err LM
  marshalImports : List GoString → Except Err GoString
  marshalCodeStats : CS → Except Err GoString
  marshalTestResults : TR → Except Err GoString
  marshalLintMessages : LM → Except Err GoString
  unmarshalImports : GoString → Option (List GoString) →
    Except (Err × Option (List GoString)) (List GoString)
  unmarshalCodeStats : GoString → Option CS → Except (Err × Option CS) CS
  unmarshalTestResults : GoString → Option TR → Except (Err × Option TR) TR
  unmarshalLintMessages : GoString → Option LM → Except (Err × Option LM) LM
  rangeKeys : List (GoString × Nat) → List GoString

/-- A `Repository` value with its four primary data fields (`none` is the
empty field), the store the package-level `leveldb` functions work on, and a
log of the producer calls made so far. -/
structure Record (CS TR LM : Type) where
  id : Repository
  CodeStats : Option CS
  Imports : Option (List GoString)
  TestResults : Option TR
  LintMessages : Option LM
  db : DB
  fetched : List GoString

/-- The method `getCachedData`. -/
def Record.getCachedData {CS TR LM : Type} (r : Record CS TR LM) (suffix : GoString) :
    Except Err (Option GoString) :=
  r.db.FindForRepositoryCmd (r.id.cacheKey suffix)

/-- The method `cacheData`; `marshalled` is the result of `json.Marshal(data)`.
Returns the error, or the store after the write. -/
def Record.cacheData {CS TR LM : Type} (r : Record CS TR LM) (suffix : GoString)
    (marshalled : Except Err GoString) : Except Err DB :=
  match marshalled with
  | Except.error e => Except.error e
  | Except.ok b => r.db.Save (r.id.cacheKey suffix) b

/-- The method `GetImports`: returned value or error, and the record
afterwards. -/
def Record.GetImports {CS TR LM : Type} (env : GetterEnv CS TR LM) (r : Record CS TR LM) :
    Except Err (List GoString) × Record CS TR LM :=
  match r.getCachedData ImportsName with
  | Except.error e => (Except.error e, r)
  | Except.ok none =>
    match env.lambdaGetImports r.id.Name with
    | Except.error e => (Except.error e, { r with fetched := r.fetched ++ [ImportsName] })
    | Except.ok res =>
      match Record.cacheData
          { r with Imports := some (env.rangeKeys (filteredImports res)),
                   fetched := r.fetched ++ [ImportsName] }
          ImportsName (env.marshalImports (env.rangeKeys (filteredImports res))) with
      | Except.error e =>
        (Except.error e, { r with Imports := some (env.rangeKeys (filteredImports res)),
                                  fetched := r.fetched ++ [ImportsName] })
      | Except.ok db' =>
        (Except.ok (env.rangeKeys (filteredImports res)),
          { r with Imports := some (env.rangeKeys (filteredImports res)),
                   fetched := r.fetched ++ [ImportsName], db := db' })
  | Except.ok (some data) =>
    match env.unmarshalImports data r.Imports with
    | Except.error (e, field) => (Except.error e, { r with Imports := field })
    | Except.ok v => (Except.ok v, { r with Imports := some v })

/-- The method `GetCodeStats`. -/
def Record.GetCodeStats {CS TR LM : Type} (env : GetterEnv CS TR LM) (r : Record CS TR LM) :
    Except Err CS × Record CS TR LM :=
  match r.getCachedData CodeStatsName with
  | Except.error e => (Except.error e, r)
  | Except.ok none =>
    match env.lambdaGetCodeStats r.id.Name with
    | Except.error e => (Except.error e, { r with fetched := r.fetched ++ [CodeStatsName] })
    | Except.ok res =>
      match Record.cacheData
          { r with CodeStats := some res, fetched := r.fetched ++ [CodeStatsName] }
          CodeStatsName (env.marshalCodeStats res) with
      | Except.error e =>
        (Except.error e, { r with CodeStats := some res,
                                  fetched := r.fetched ++ [CodeStatsName] })
      | Except.ok db' =>
        (Except.ok res, { r with CodeStats := some res,
                                 fetched := r.fetched ++ [CodeStatsName], db := db' })
  | Except.ok (some data) =>
    match env.unmarshalCodeStats data r.CodeStats with
    | Except.error (e, field) => (Except.error e, { r with CodeStats := field })
    | Except.ok v => (Except.ok v, { r with CodeStats := some v })

/-- The method `GetTestResults`. -/
def Record.GetTestResults {CS TR LM : Type} (env : GetterEnv CS TR LM) (r : Record CS TR LM) :
    Except Err TR × Record CS TR LM :=
  match r.getCachedData TestResultsName with
  | Except.error e => (Except.error e, r)
  | Except.ok none =>
    match env.lambdaGetTestResults r.id.Name with
    | Except.error e => (Except.error e, { r with fetched := r.fetched ++ [TestResultsName] })
    | Except.ok res =>
      match Record.cacheData
          { r with TestResults := some res, fetched := r.fetched ++ [TestResultsName] }
          TestResultsName (env.marshalTestResults res) with
      | Except.error e =>
        (Except.error e, { r with TestResults := some res,
                                  fetched := r.fetched ++ [TestResultsName] })
      | Except.ok db' =>
        (Except.ok res, { r with TestResults := some res,
                                 fetched := r.fetched ++ [TestResultsName], db := db' })
  | Except.ok (some data) =>
    match env.unmarshalTestResults data r.TestResults with
    | Except.error (e, field) => (Except.error e, { r with TestResults := field })
    | Except.ok v => (Except.ok v, { r with TestResults := some v })

/-- The method `GetLintMessages`. -/
def Record.GetLintMessages {CS TR LM : Type} (env : GetterEnv CS TR LM) (r : Record CS TR LM)
    (linters : List GoString) : Except Err LM × Record CS TR LM :=
  match r.getCachedData LintMessagesName with
  | Except.error e => (Except.error e, r)
  | Except.ok none =>
    match env.lambdaGetLintMessages r.id.Name linters with
    | Except.error e => (Except.error e, { r with fetched := r.fetched ++ [LintMessagesName] })
    | Except.ok res =>
      match Record.cacheData
          { r with LintMessages := some res, fetched := r.fetched ++ [LintMessagesName] }
          LintMessagesName (env.marshalLintMessages res) with
      | Except.error e =>
        (Except.error e, { r with LintMessages := some res,
                                  fetched := r.fetched ++ [LintMessagesName] })
      | Except.ok db' =>
        (Except.ok res, { r with LintMessages := some res,
                                 fetched := r.fetched ++ [LintMessagesName], db := db' })
  | Except.ok (some data) =>
    match env.unmarshalLintMessages data r.LintMessages with
    | Except.error (e, field) => (Except.error e, { r with LintMessages := field })
    | Except.ok v => (Except.ok v, { r with LintMessages := some v })

/-- A sample environment over numbers: every producer returns a fresh value,
encoding always gives the bytes `7`, and the only bytes that decode are `7`.
Decoding the imports bytes `["a",1,"b"]` fails on the number after the decoder
has filled the field with `a`, the empty string and `b`; any other bytes are a
syntax error and leave the field as it was. -/
def sampleGetterEnv : GetterEnv Nat Nat Nat :=
  { lambdaGetImports := fun _ => Except.ok ["host.com/org/a/sub1".toList]
    lambdaGetCodeStats := fun _ => Except.ok 7
    lambdaGetTestResults := fun _ => Except.ok 7
    lambdaGetLintMessages := fun _ _ => Except.ok 7
    marshalImports := fun _ => Except.ok "7".toList
    marshalCodeStats := fun _ => Except.ok "7".toList
    marshalTestResults := fun _ => Except.ok "7".toList
    marshalLintMessages := fun _ => Except.ok "7".toList
    unmarshalImports := fun d old =>
      if d = "7".toList then Except.ok ["host.com/org/a".toList]
      else if d = "[\"a\",1,\"b\"]".toList then
        Except.error (Err.other "cannot unmarshal number into Go value of type string",
          some ["a".toList, [], "b".toList])
      else Except.error (Err.other "invalid character", old)
    unmarshalCodeStats := fun d old =>
      if d = "7".toList then Except.ok 7
      else Except.error (Err.other "invalid character", old)
    unmarshalTestResults := fun d old =>
      if d = "7".toList then Except.ok 7
      else Except.error (Err.other "invalid character", old)
    unmarshalLintMessages := fun d old =>
      if d = "7".toList then Except.ok 7
      else Except.error (Err.other "invalid character", old)
    rangeKeys := mapKeys }

/-- The sample environment with the producer of imports returning `imports`
and the map `filtered` ranged over in the order `range`. -/
def importsEnv (imports : List GoString) (range : List (GoString × Nat) → List GoString) :
    GetterEnv Nat Nat Nat :=
  { sampleGetterEnv with
    lambdaGetImports := fun _ => Except.ok imports
    rangeKeys := range }

/-- A sample record of `github.com/o/p` with nothing loaded and an empty,
healthy store. -/
def emptyRecord : Record Nat Nat Nat :=
  { id := sampleRepo, CodeStats := none, Imports := none, TestResults := none,
    LintMessages := none, db := ⟨[], none, none⟩, fetched := [] }

/-- A sample record of `github.com/o/p` whose store holds undecodable bytes
under the `imports` key (`["a",1,"b"]`, a number among the strings) and under
the `codestats` key (`?`, not JSON). -/
def corruptRecord : Record Nat Nat Nat :=
  { id := sampleRepo, CodeStats := none, Imports := none, TestResults := none,
    LintMessages := none,
    db := ⟨[(sampleRepo.cacheKey ImportsName, "[\"a\",1,\"b\"]".toList),
            (sampleRepo.cacheKey CodeStatsName, "?".toList)], none, none⟩,
    fetched := [] }

/-- A sample record of `github.com/o/p` with an empty store that can be read
but not written. -/
def readOnlyRecord : Record Nat Nat Nat :=
  { id := sampleRepo, CodeStats := none, Imports := none, TestResults := none,
    LintMessages := none, db := ⟨[], none, some (Err.other "disk full")⟩, fetched := [] }

/-! ## The project handler (`src/server/server.go:104`) -/

/-- How `repositoryHandler` files a getter result `(value, err)` in
`rc.output`: the error when `err != nil`, the value otherwise. -/
def recordResult (res : Except Err GoString) : Out :=
  match res with
  | Except.error e => Out.error e
  | Except.ok v => Out.value v

/-- The function `repositoryHandler` from `go rc.RunAll()` on: the map it
passes to `send`, or `none` when it never gets past the receive
`<-rc.dataLoaded`.  The arguments `score`, `date` and `executionTime` are the
results of `GetScore`, `GetDate` and `GetExecutionTime`, which are called
after that receive. -/
def repositoryHandler (bound : Nat) (p : Producers)
    (score date executionTime : Except Err GoString) : Option (List (GoString × Out)) :=
  match RunAll bound p handlerTypes with
  | (rc, true) =>
    some (mapSet (mapSet (mapSet rc.output "score".toList (recordResult score))
      "date".toList (recordResult date)) "executionTime".toList (recordResult executionTime))
  | (_, false) => none

/-- The category `tp` is obtained successfully: its getter returns before the
wait bound, and what it returns is not an error. -/
def obtained (bound : Nat) (p : Producers) (tp : GoString) : Bool :=
  match worker p tp with
  | some (_, Out.error _) => false
  | some (d, _) => decide (d < bound)
  | none => false

/-- Sample producers, in seconds: `GetTestResults` returns a transport error
after 10 s, the other three getters return their values after 10 s. -/
def failingTests : Producers :=
  ⟨some (10, Out.value "I".toList), some (10, Out.value "C".toList),
   some (10, Out.error (Err.other "transport")), some (10, Out.value "L".toList)⟩

/-- Sample producers, in seconds: `GetLintMessages` never returns, the other
three getters return their values after 10 s. -/
def stuckLint : Producers :=
  ⟨some (10, Out.value "I".toList), some (10, Out.value "C".toList),
   some (10, Out.value "T".toList), none⟩

/-- Sample producers, in seconds: all four getters return their values after
10 s. -/
def allInTime : Producers :=
  ⟨some (10, Out.value "I".toList), some (10, Out.value "C".toList),
   some (10, Out.value "T".toList), some (10, Out.value "L".toList)⟩

/-! ## Theorems -/

theorem mem_mapKeys_mapSet (m : List (GoString × Nat)) (k : GoString) (v : Nat) (x : GoString) :
    x ∈ mapKeys (mapSet m k v) ↔ x = k ∨ x ∈ mapKeys m := by
  induction m with
  | nil => simp [mapSet, mapKeys]
  | cons hd tl ih =>
    obtain ⟨k', v'⟩ := hd
    unfold mapSet
    by_cases h : k' = k
    · subst h
      simp [mapKeys]
    · simp only [h, if_false]
      simp only [mapKeys, List.map_cons, List.mem_cons] at ih ⊢
      rw [ih]
      tauto

theorem nodup_mapKeys_mapSet (m : List (GoString × Nat)) (k : GoString) (v : Nat)
    (h : (mapKeys m).Nodup) : (mapKeys (mapSet m k v)).Nodup := by
  induction m with
  | nil => simp [mapSet, mapKeys]
  | cons hd tl ih =>
    obtain ⟨k', v'⟩ := hd
    have hnd : k' ∉ mapKeys tl ∧ (mapKeys tl).Nodup := by
      simpa [mapKeys] using h
    unfold mapSet
    by_cases hk : k' = k
    · subst hk
      simpa [mapKeys] using h
    · simp only [hk, if_false]
      have h1 : mapKeys ((k', v') :: mapSet tl k v) = k' :: mapKeys (mapSet tl k v) := rfl
      rw [h1, List.nodup_cons]
      refine ⟨?_, ih hnd.2⟩
      rw [mem_mapKeys_mapSet]
      rintro (h2 | h2)
      · exact hk h2
      · exact hnd.1 h2

theorem filtered_fold_spec (imports : List GoString) (m : List (GoString × Nat))
    (hm : (mapKeys m).Nodup) :
    (mapKeys (imports.foldl (fun filtered im => mapSet filtered (norm im) 1) m)).Nodup ∧
    ∀ x, x ∈ mapKeys (imports.foldl (fun filtered im => mapSet filtered (norm im) 1) m) ↔
      x ∈ mapKeys m ∨ ∃ im ∈ imports, x = norm im := by
  induction imports generalizing m with
  | nil => simp [hm]
  | cons im rest ih =>
    simp only [List.foldl_cons]
    obtain ⟨h1, h2⟩ := ih (mapSet m (norm im) 1) (nodup_mapKeys_mapSet m _ _ hm)
    refine ⟨h1, fun x => ?_⟩
    rw [h2, mem_mapKeys_mapSet]
    simp only [List.mem_cons, exists_eq_or_imp]
    tauto

theorem dedupeImports_spec (imports : List GoString) :
    (dedupeImports imports).Nodup ∧
    ∀ x, x ∈ dedupeImports imports ↔ ∃ im ∈ imports, x = norm im := by
  obtain ⟨h1, h2⟩ := filtered_fold_spec imports [] (by simp [mapKeys])
  refine ⟨h1, fun x => ?_⟩
  have := h2 x
  simpa [mapKeys, dedupeImports, filteredImports] using this

theorem IsDedupedImports_spec (imports out : List GoString)
    (h : IsDedupedImports imports out) :
    out.Nodup ∧ (∀ x, x ∈ out ↔ ∃ im ∈ imports, x = norm im) ∧
    (imports = ["host.com/org/a/sub1".toList, "host.com/org/a/sub2".toList,
        "other.com/pkg".toList] →
      out.Perm ["host.com/org/a".toList, "other.com/pkg".toList] ∧ out.length = 2) := by
  have hp : out.Perm (dedupeImports imports) := h
  obtain ⟨h1, h2⟩ := dedupeImports_spec imports
  refine ⟨hp.nodup_iff.mpr h1, fun x => ?_, fun he => ?_⟩
  · rw [hp.mem_iff, h2]
  · subst he
    have hd : dedupeImports ["host.com/org/a/sub1".toList, "host.com/org/a/sub2".toList,
        "other.com/pkg".toList] = ["host.com/org/a".toList, "other.com/pkg".toList] := by
      decide
    rw [hd] at hp
    exact ⟨hp, by simpa using hp.length_eq⟩

/-! ### Matching the import pattern -/

theorem matchItems_lit (c : Char) (rest : List Item) (xs : GoString) :
    matchItems (Item.lit c :: rest) (c :: xs) = (matchItems rest xs).map (fun m => c :: m) := by
  simp [matchItems]

theorem matchItems_plus_greedy (cls : Char → Bool) (rest : List Item) (s r : GoString)
    (hne : s.takeWhile cls ≠ []) (hr : matchItems rest (s.dropWhile cls) = some r) :
    matchItems (Item.plus cls :: rest) s = some (s.takeWhile cls ++ r) := by
  obtain ⟨tw, dw, htw, hdw, hs⟩ : ∃ tw dw, s.takeWhile cls = tw ∧ s.dropWhile cls = dw ∧
      s = tw ++ dw := ⟨_, _, rfl, rfl, (List.takeWhile_append_dropWhile cls s).symm⟩
  rw [htw] at hne ⊢
  rw [hdw] at hr
  obtain ⟨k, hk⟩ : ∃ k, tw.length = k + 1 := by
    cases tw with
    | nil => exact absurd rfl hne
    | cons a t => exact ⟨t.length, rfl⟩
  have htake : s.take (k + 1) = tw := by
    rw [hs, ← hk]; simp
  have hdrop : s.drop (k + 1) = dw := by
    rw [hs, ← hk]; simp
  simp only [matchItems, htw, hk, List.range_succ, List.reverse_append, List.reverse_cons,
    List.reverse_nil, List.nil_append, List.cons_append, List.findSome?_cons, htake, hdrop, hr,
    Option.map_some']

theorem takeWhile_segment (cls : Char → Bool) (seg rest : GoString)
    (hseg : ∀ c ∈ seg, cls c = true) (hrest : rest = [] ∨ ∃ c t, rest = c :: t ∧ cls c = false) :
    (seg ++ rest).takeWhile cls = seg ∧ (seg ++ rest).dropWhile cls = rest := by
  induction seg with
  | nil =>
    rcases hrest with h | ⟨c, t, h, hc⟩
    · subst h; simp
    · subst h; simp [List.takeWhile, List.dropWhile, hc]
  | cons a seg ih =>
    have ha : cls a = true := hseg a (List.mem_cons_self _ _)
    have ih2 := ih (fun c hc => hseg c (List.mem_cons_of_mem _ hc))
    simp [List.takeWhile, List.dropWhile, ha, ih2.1, ih2.2]

theorem takeWhile_third (s3 tail : GoString) (ht : tail = [] ∨ tail.head? = some '/') :
    (s3 ++ tail).takeWhile nameClass = s3.takeWhile nameClass := by
  induction s3 with
  | nil =>
    rcases ht with h | h
    · subst h; rfl
    · cases tail with
      | nil => rfl
      | cons c t =>
        have hc : c = '/' := by simpa using h
        subst hc
        have : nameClass '/' = false := by decide
        simp [List.takeWhile, this]
  | cons a s3 ih =>
    cases ha : nameClass a <;> simp [List.takeWhile, ha, ih]

theorem norm_of_segments (p s1 s2 s3 : GoString) (hp : HasFirstSegments p s1 s2 s3)
    (h1 : s1 ≠ [] ∧ ∀ c ∈ s1, hostClass c = true)
    (h2 : s2 ≠ [] ∧ ∀ c ∈ s2, nameClass c = true)
    (h3 : ∃ c, s3.head? = some c ∧ nameClass c = true) :
    norm p = s1 ++ '/' :: (s2 ++ '/' :: s3.takeWhile nameClass) := by
  obtain ⟨-, -, -, tail, ht, rfl⟩ := hp
  have hslash1 : hostClass '/' = false := by decide
  have hslash2 : nameClass '/' = false := by decide
  have e1 := takeWhile_segment hostClass s1 ('/' :: (s2 ++ '/' :: (s3 ++ tail))) h1.2
    (Or.inr ⟨_, _, rfl, hslash1⟩)
  have e2 := takeWhile_segment nameClass s2 ('/' :: (s3 ++ tail)) h2.2
    (Or.inr ⟨_, _, rfl, hslash2⟩)
  have e3 := takeWhile_third s3 tail ht
  have hne3 : (s3 ++ tail).takeWhile nameClass ≠ [] := by
    obtain ⟨c, hc, hcc⟩ := h3
    cases s3 with
    | nil => simp at hc
    | cons a t =>
      have : a = c := by simpa using hc
      subst this
      simp [List.takeWhile, hcc]
  have m3 : matchItems [Item.plus nameClass] (s3 ++ tail) = some (s3.takeWhile nameClass) := by
    have := matchItems_plus_greedy nameClass [] (s3 ++ tail) [] hne3 (by simp [matchItems])
    simpa [e3] using this
  have m2 : matchItems [Item.plus nameClass, Item.lit '/', Item.plus nameClass]
      (s2 ++ '/' :: (s3 ++ tail)) = some (s2 ++ '/' :: s3.takeWhile nameClass) := by
    have := matchItems_plus_greedy nameClass [Item.lit '/', Item.plus nameClass]
      (s2 ++ '/' :: (s3 ++ tail)) ('/' :: s3.takeWhile nameClass)
      (by rw [e2.1]; exact h2.1) (by rw [e2.2, matchItems_lit, m3]; rfl)
    simpa [e2.1] using this
  have m1 : matchItems importPattern (s1 ++ '/' :: (s2 ++ '/' :: (s3 ++ tail))) =
      some (s1 ++ '/' :: (s2 ++ '/' :: s3.takeWhile nameClass)) := by
    have := matchItems_plus_greedy hostClass
      [Item.lit '/', Item.plus nameClass, Item.lit '/', Item.plus nameClass]
      (s1 ++ '/' :: (s2 ++ '/' :: (s3 ++ tail))) ('/' :: (s2 ++ '/' :: s3.takeWhile nameClass))
      (by rw [e1.1]; exact h1.1) (by rw [e1.2, matchItems_lit, m2]; rfl)
    simpa [e1.1, importPattern] using this
  simp [norm, findStringSubmatch0, m1]

theorem filter_eq_length_one (l : List GoString) (a : GoString) (hnd : l.Nodup) (ha : a ∈ l) :
    (l.filter (fun x => decide (x = a))).length = 1 := by
  induction l with
  | nil => simp at ha
  | cons b t ih =>
    obtain ⟨hb, ht⟩ := List.nodup_cons.mp hnd
    by_cases hba : b = a
    · subst hba
      have hnone : t.filter (fun x => decide (x = b)) = [] := by
        rw [List.filter_eq_nil_iff]
        intro x hx hxb
        have : x = b := by simpa using hxb
        exact hb (this ▸ hx)
      simp [List.filter_cons, hnone]
    · have hat : a ∈ t := by
        rcases List.mem_cons.mp ha with h | h
        · exact absurd h.symm hba
        · exact h
      simp [List.filter_cons, hba, ih ht hat]

/-- The imports `my-host.com/org/a/sub1` and `my-host.com/org/a/sub2` share
their first three segments, but the pattern does not match a host with a
hyphen, so the dedup block files each under itself and keeps both. -/
theorem GetImports_collapse_counterexample :
    HasFirstSegments "my-host.com/org/a/sub1".toList "my-host.com".toList "org".toList "a".toList ∧
    HasFirstSegments "my-host.com/org/a/sub2".toList "my-host.com".toList "org".toList "a".toList ∧
    norm "my-host.com/org/a/sub1".toList ≠ norm "my-host.com/org/a/sub2".toList ∧
    dedupeImports ["my-host.com/org/a/sub1".toList, "my-host.com/org/a/sub2".toList] =
      ["my-host.com/org/a/sub1".toList, "my-host.com/org/a/sub2".toList] := by
  refine ⟨⟨by decide, by decide, by decide, "/sub1".toList, Or.inr rfl, by decide⟩,
    ⟨by decide, by decide, by decide, "/sub2".toList, Or.inr rfl, by decide⟩, by decide, by decide⟩

/-- Supporting fact for C2: two imports that share their first three segments
collapse to one entry of the deduplicated result whenever the pattern matches them,
that is when the first segment is a non-empty run of `[\w\d\.]`, the second a
non-empty run of `[\w\d\-]` and the third starts with a character of
`[\w\d\-]`; the entry is the three segments with the third cut at its first
character outside the class, and it occurs exactly once in the result. -/
theorem GetImports_collapse (imports out : List GoString) (a b s1 s2 s3 : GoString)
    (h : IsDedupedImports imports out) (ha : a ∈ imports) (hb : b ∈ imports)
    (hsa : HasFirstSegments a s1 s2 s3) (hsb : HasFirstSegments b s1 s2 s3)
    (h1 : s1 ≠ [] ∧ ∀ c ∈ s1, hostClass c = true)
    (h2 : s2 ≠ [] ∧ ∀ c ∈ s2, nameClass c = true)
    (h3 : ∃ c, s3.head? = some c ∧ nameClass c = true) :
    norm a = norm b ∧ norm a = s1 ++ '/' :: (s2 ++ '/' :: s3.takeWhile nameClass) ∧
    norm b ∈ out ∧ (out.filter (fun x => decide (x = norm a))).length = 1 := by
  have na := norm_of_segments a s1 s2 s3 hsa h1 h2 h3
  have nb := norm_of_segments b s1 s2 s3 hsb h1 h2 h3
  have hp : out.Perm (dedupeImports imports) := h
  obtain ⟨hnd, hmem⟩ := dedupeImports_spec imports
  have hin : norm a ∈ out := hp.mem_iff.mpr ((hmem _).mpr ⟨a, ha, rfl⟩)
  refine ⟨by rw [na, nb], na, hp.mem_iff.mpr ((hmem _).mpr ⟨b, hb, rfl⟩), ?_⟩
  exact filter_eq_length_one out (norm a) (hp.nodup_iff.mpr hnd) hin

/-- The spec's two `host.com/org/a/...` imports collapse to one entry. -/
theorem GetImports_collapse_example :
    norm "host.com/org/a/sub1".toList = norm "host.com/org/a/sub2".toList ∧
    norm "host.com/org/a/sub1".toList = "host.com".toList ++ '/' :: ("org".toList ++ '/' ::
      "a".toList.takeWhile nameClass) ∧
    norm "host.com/org/a/sub2".toList ∈
      dedupeImports ["host.com/org/a/sub1".toList, "host.com/org/a/sub2".toList] ∧
    ((dedupeImports ["host.com/org/a/sub1".toList, "host.com/org/a/sub2".toList]).filter
      (fun x => decide (x = norm "host.com/org/a/sub1".toList))).length = 1 :=
  GetImports_collapse ["host.com/org/a/sub1".toList, "host.com/org/a/sub2".toList]
    (dedupeImports ["host.com/org/a/sub1".toList, "host.com/org/a/sub2".toList])
    "host.com/org/a/sub1".toList "host.com/org/a/sub2".toList
    "host.com".toList "org".toList "a".toList
    (List.Perm.refl _) (by decide) (by decide)
    ⟨by decide, by decide, by decide, "/sub1".toList, Or.inr rfl, by decide⟩
    ⟨by decide, by decide, by decide, "/sub2".toList, Or.inr rfl, by decide⟩
    ⟨by decide, by decide⟩ ⟨by decide, by decide⟩ ⟨'a', rfl, by decide⟩

/-! ### Cache keys -/

theorem split_unique_left (c : Char) (a a' x x' : GoString) (ha : c ∉ a) (ha' : c ∉ a')
    (h : a ++ c :: x = a' ++ c :: x') : a = a' ∧ x = x' := by
  induction a generalizing a' with
  | nil =>
    cases a' with
    | nil => simpa using h
    | cons d t =>
      have hd : c = d := by simpa using (List.cons.inj h).1
      exact absurd (hd ▸ List.mem_cons_self _ _) ha'
  | cons b t ih =>
    cases a' with
    | nil =>
      have hd : b = c := by simpa using (List.cons.inj h).1
      exact absurd (hd ▸ List.mem_cons_self _ _) ha
    | cons d t' =>
      obtain ⟨h1, h2⟩ := List.cons.inj h
      obtain ⟨e1, e2⟩ := ih t' (fun hc => ha (List.mem_cons_of_mem _ hc))
        (fun hc => ha' (List.mem_cons_of_mem _ hc)) h2
      exact ⟨by rw [h1, e1], e2⟩

theorem split_unique_right (c : Char) (a a' x x' : GoString) (hx : c ∉ x) (hx' : c ∉ x')
    (h : a ++ c :: x = a' ++ c :: x') : a = a' ∧ x = x' := by
  have hr : x.reverse ++ c :: a.reverse = x'.reverse ++ c :: a'.reverse := by
    have := congrArg List.reverse h
    simpa using this
  obtain ⟨e1, e2⟩ := split_unique_left c x.reverse x'.reverse a.reverse a'.reverse
    (by simpa using hx) (by simpa using hx') hr
  exact ⟨List.reverse_injective e2, List.reverse_injective e1⟩

theorem categories_no_hyphen : ∀ c ∈ categories, '-' ∉ c := by decide

/-- C3 (as stated) fails: the identifiers (`github.com/o/p-x`, `y`) and
(`github.com/o/p`, `x-y`) differ, yet every category gets the same key for
both, here `github.com/o/p-x-y-imports`. -/
theorem cacheKey_injective_counterexample :
    (⟨"github.com/o/p-x".toList, "y".toList⟩ : Repository) ≠
      ⟨"github.com/o/p".toList, "x-y".toList⟩ ∧
    "imports".toList ∈ categories ∧
    Repository.cacheKey ⟨"github.com/o/p-x".toList, "y".toList⟩ "imports".toList =
      Repository.cacheKey ⟨"github.com/o/p".toList, "x-y".toList⟩ "imports".toList := by
  refine ⟨by decide, by decide, by decide⟩

/-- C3 (amended): over identifiers whose branches contain no `-` (in
particular the empty branch, the only one the handlers use), or whose names
contain no `-`, and categories among the eight names, `cacheKey` is
injective: different triples get different keys. -/
theorem cacheKey_injective (r r' : Repository) (c c' : GoString)
    (hc : c ∈ categories) (hc' : c' ∈ categories)
    (hyp : ('-' ∉ r.Branch ∧ '-' ∉ r'.Branch) ∨ ('-' ∉ r.Name ∧ '-' ∉ r'.Name))
    (hne : (r, c) ≠ (r', c')) : r.cacheKey c ≠ r'.cacheKey c' := by
  intro hkey
  apply hne
  obtain ⟨n, b⟩ := r
  obtain ⟨n', b'⟩ := r'
  have hcn := categories_no_hyphen c hc
  have hcn' := categories_no_hyphen c' hc'
  simp only [Repository.cacheKey] at hkey
  have hd : "-".toList = ['-'] := rfl
  rw [hd] at hkey
  simp only at hyp
  rcases hyp with ⟨hb, hb'⟩ | ⟨hn, hn'⟩
  · have h1 : (n ++ '-' :: b) ++ '-' :: c = (n' ++ '-' :: b') ++ '-' :: c' := by
      simpa using hkey
    obtain ⟨e1, e2⟩ := split_unique_right '-' _ _ c c' hcn hcn' h1
    obtain ⟨e3, e4⟩ := split_unique_right '-' n n' b b' hb hb' e1
    rw [e2, e3, e4]
  · have h1 : n ++ '-' :: (b ++ '-' :: c) = n' ++ '-' :: (b' ++ '-' :: c') := by
      simpa using hkey
    obtain ⟨e1, e2⟩ := split_unique_left '-' n n' _ _ hn hn' h1
    obtain ⟨e3, e4⟩ := split_unique_right '-' b b' c c' hcn hcn' e2
    rw [e1, e3, e4]

/-- Witness for C3 (amended): two names with hyphens under the empty branch. -/
theorem cacheKey_injective_witness :
    Repository.cacheKey ⟨"github.com/o/p-x".toList, []⟩ "score".toList ≠
      Repository.cacheKey ⟨"github.com/o/p".toList, []⟩ "date".toList :=
  cacheKey_injective ⟨"github.com/o/p-x".toList, []⟩ ⟨"github.com/o/p".toList, []⟩
    "score".toList "date".toList (by decide) (by decide)
    (Or.inl ⟨by decide, by decide⟩) (by decide)

/-! ### The cache predicates -/

theorem cacheKey_eq_keyStart (r : Repository) (c : GoString) :
    r.cacheKey c = r.keyStart ++ ("-".toList ++ c) := by
  simp [Repository.cacheKey, Repository.keyStart]

theorem keyStart_isPrefixOf_cacheKey (r : Repository) (c : GoString) :
    r.keyStart.isPrefixOf (r.cacheKey c) = true := by
  rw [List.isPrefixOf_iff_prefix, cacheKey_eq_keyStart]
  exact ⟨_, rfl⟩

theorem nodup_category_keys (r : Repository) : (categories.map r.cacheKey).Nodup := by
  refine List.Nodup.map ?_ (by decide)
  intro c c' h
  rw [cacheKey_eq_keyStart, cacheKey_eq_keyStart] at h
  exact List.append_cancel_left (List.append_cancel_left h)

theorem length_filter_ne_key (l : List (GoString × GoString)) (k : GoString)
    (hnd : (l.map Prod.fst).Nodup) (hk : k ∈ l.map Prod.fst) :
    (l.filter (fun kv => !(kv.1 == k))).length + 1 = l.length := by
  induction l with
  | nil => simp at hk
  | cons hd tl ih =>
    obtain ⟨hhd, htl⟩ : hd.1 ∉ tl.map Prod.fst ∧ (tl.map Prod.fst).Nodup := by
      simpa using hnd
    by_cases he : hd.1 = k
    · have hall : tl.filter (fun kv => !(kv.1 == k)) = tl := by
        rw [List.filter_eq_self]
        intro kv hkv
        have hne : kv.1 ≠ k := by
          intro hc
          exact hhd (he ▸ hc ▸ List.mem_map_of_mem Prod.fst hkv)
        simpa using hne
      simp [List.filter_cons, he, hall]
    · have hkt : k ∈ tl.map Prod.fst := by
        have hk2 : k ∈ hd.1 :: tl.map Prod.fst := hk
        rcases List.mem_cons.mp hk2 with h | h
        · exact absurd h.symm he
        · exact h
      have := ih htl hkt
      simp [List.filter_cons, he]
      omega

theorem IsCached_eq_true_iff (r : Repository) (db : DB) :
    r.IsCached db = true ↔ db.readErr = none ∧
      (db.entries.filter (fun kv => r.keyStart.isPrefixOf kv.1)).length = 8 := by
  unfold Repository.IsCached DB.FindAllForRepository
  cases h : db.readErr with
  | some e => simp
  | none => simp

/-- C4 (code defect): `IsCached` answers wrongly in both directions.  With the eight keys of
`github.com/o/p` and one key of `github.com/o/p-x` in the store, all eight
keys of `github.com/o/p` exist but `IsCached` is false (nine entries start
with `github.com/o/p-`); with only the eight keys of `github.com/o/p-x` in the
store, none of the keys of `github.com/o/p` exists but `IsCached` is true. -/
theorem IsCached_counterexample :
    ((∀ c ∈ categories, Repository.cacheKey ⟨"github.com/o/p".toList, []⟩ c ∈
        DB.keys ⟨Repository.fullEntries ⟨"github.com/o/p".toList, []⟩ "1".toList ++
          [(Repository.cacheKey ⟨"github.com/o/p-x".toList, []⟩ "imports".toList, "1".toList)],
          none, none⟩) ∧
      Repository.IsCached ⟨"github.com/o/p".toList, []⟩
        ⟨Repository.fullEntries ⟨"github.com/o/p".toList, []⟩ "1".toList ++
          [(Repository.cacheKey ⟨"github.com/o/p-x".toList, []⟩ "imports".toList, "1".toList)],
          none, none⟩ = false) ∧
    ((∀ c ∈ categories, Repository.cacheKey ⟨"github.com/o/p".toList, []⟩ c ∉
        DB.keys ⟨Repository.fullEntries ⟨"github.com/o/p-x".toList, []⟩ "1".toList,
          none, none⟩) ∧
      Repository.IsCached ⟨"github.com/o/p".toList, []⟩
        ⟨Repository.fullEntries ⟨"github.com/o/p-x".toList, []⟩ "1".toList, none, none⟩ =
          true) := by
  refine ⟨⟨by decide, by decide⟩, by decide, by decide⟩

/-- Supporting fact for C4: `IsCached` is true iff the store read succeeds and exactly
eight entries have a key starting with `name-branch`.  In a store where every
key with that start is one of the identifier's eight category keys, this is
the case iff all eight category keys exist; and from any store where
`IsCached` is true, deleting one of the eight category keys flips it to
false. -/
theorem IsCached_iff_eight (r : Repository) (db : DB) :
    (r.IsCached db = true ↔ db.readErr = none ∧
      (db.entries.filter (fun kv => r.keyStart.isPrefixOf kv.1)).length = 8) ∧
    (db.WellFormed → db.readErr = none →
      (∀ k ∈ db.keys, r.keyStart.isPrefixOf k = true → ∃ c ∈ categories, k = r.cacheKey c) →
      (r.IsCached db = true ↔ ∀ c ∈ categories, r.cacheKey c ∈ db.keys)) ∧
    (db.WellFormed → r.IsCached db = true → ∀ c ∈ categories, r.cacheKey c ∈ db.keys →
      ∀ db', db.Delete (r.cacheKey c) = Except.ok db' → r.IsCached db' = false) := by
  refine ⟨IsCached_eq_true_iff r db, ?_, ?_⟩
  · intro hwf hread honly
    have hFnd : ((db.entries.filter (fun kv => r.keyStart.isPrefixOf kv.1)).map Prod.fst).Nodup :=
      ((List.filter_sublist db.entries).map Prod.fst).nodup hwf
    have hFsub : (db.entries.filter (fun kv => r.keyStart.isPrefixOf kv.1)).map Prod.fst ⊆
        categories.map r.cacheKey := by
      intro k hk
      obtain ⟨kv, hkv, rfl⟩ := List.mem_map.mp hk
      obtain ⟨hmem, hpre⟩ := List.mem_filter.mp hkv
      obtain ⟨c, hc, hkc⟩ := honly kv.1 (List.mem_map_of_mem Prod.fst hmem) hpre
      exact List.mem_map.mpr ⟨c, hc, hkc.symm⟩
    have hKlen : (categories.map r.cacheKey).length = 8 := by simp [categories]
    have hFlen : ((db.entries.filter (fun kv => r.keyStart.isPrefixOf kv.1)).map Prod.fst).length
        = (db.entries.filter (fun kv => r.keyStart.isPrefixOf kv.1)).length := by simp
    rw [IsCached_eq_true_iff]
    constructor
    · rintro ⟨-, hlen⟩ c hc
      have hperm := (List.subperm_of_subset hFnd hFsub).perm_of_length_le
        (by rw [hKlen, hFlen, hlen])
      have hin : r.cacheKey c ∈ (db.entries.filter
          (fun kv => r.keyStart.isPrefixOf kv.1)).map Prod.fst :=
        hperm.mem_iff.mpr (List.mem_map_of_mem r.cacheKey hc)
      obtain ⟨kv, hkv, hk⟩ := List.mem_map.mp hin
      exact List.mem_map.mpr ⟨kv, (List.mem_filter.mp hkv).1, hk⟩
    · intro hall
      refine ⟨hread, ?_⟩
      have hKsub : categories.map r.cacheKey ⊆
          (db.entries.filter (fun kv => r.keyStart.isPrefixOf kv.1)).map Prod.fst := by
        intro k hk
        obtain ⟨c, hc, rfl⟩ := List.mem_map.mp hk
        obtain ⟨kv, hkv, hkk⟩ := List.mem_map.mp (hall c hc)
        refine List.mem_map.mpr ⟨kv, List.mem_filter.mpr ⟨hkv, ?_⟩, hkk⟩
        rw [hkk]
        exact keyStart_isPrefixOf_cacheKey r c
      have h1 := (List.subperm_of_subset hFnd hFsub).length_le
      have h2 := (List.subperm_of_subset (nodup_category_keys r) hKsub).length_le
      omega
  · intro hwf hcached c _ hin db' hdel
    obtain ⟨hread, hlen⟩ := (IsCached_eq_true_iff r db).mp hcached
    have hdb' : db'.readErr = db.readErr ∧
        db'.entries = db.entries.filter (fun kv => !(kv.1 == r.cacheKey c)) := by
      unfold DB.Delete at hdel
      cases hw : db.writeErr with
      | some e => simp [hw] at hdel
      | none =>
        simp only [hw, Except.ok.injEq] at hdel
        subst hdel
        exact ⟨rfl, rfl⟩
    have hFnd : ((db.entries.filter (fun kv => r.keyStart.isPrefixOf kv.1)).map Prod.fst).Nodup :=
      ((List.filter_sublist db.entries).map Prod.fst).nodup hwf
    have hkF : r.cacheKey c ∈
        (db.entries.filter (fun kv => r.keyStart.isPrefixOf kv.1)).map Prod.fst := by
      obtain ⟨kv, hkv, hkk⟩ := List.mem_map.mp hin
      refine List.mem_map.mpr ⟨kv, List.mem_filter.mpr ⟨hkv, ?_⟩, hkk⟩
      rw [hkk]
      exact keyStart_isPrefixOf_cacheKey r c
    have hcount := length_filter_ne_key _ _ hFnd hkF
    have hne : ¬ (r.IsCached db' = true) := by
      rw [IsCached_eq_true_iff, hdb'.2]
      rintro ⟨-, h8⟩
      rw [List.filter_filter] at h8
      rw [List.filter_filter] at hcount
      have hswap : (fun a : GoString × GoString =>
            r.keyStart.isPrefixOf a.1 && !(a.1 == r.cacheKey c)) =
          (fun a => !(a.1 == r.cacheKey c) && r.keyStart.isPrefixOf a.1) := by
        funext a
        exact Bool.and_comm _ _
      rw [hswap] at h8
      omega
    simpa using hne

/-- Example for C4: in the sample store, which also holds the keys
of `github.com/o/q`, `github.com/o/p` is cached, and deleting its `score` key
makes `IsCached` false. -/
theorem IsCached_iff_eight_example :
    sampleRepo.IsCached sampleStore = true ∧
    sampleRepo.IsCached ⟨sampleStore.entries.filter
      (fun kv => !(kv.1 == sampleRepo.cacheKey "score".toList)), none, none⟩ = false := by
  have h := IsCached_iff_eight sampleRepo sampleStore
  have hwf : sampleStore.WellFormed := by
    unfold DB.WellFormed
    decide
  have hall : ∀ c ∈ categories, sampleRepo.cacheKey c ∈ sampleStore.keys := by decide
  have hcached : sampleRepo.IsCached sampleStore = true :=
    (h.2.1 hwf rfl (by decide)).mpr hall
  exact ⟨hcached, h.2.2 hwf hcached "score".toList (by decide) (hall _ (by decide)) _ rfl⟩

/-- C5 (as stated) fails: clearing the cache of `github.com/o/p` also removes
the `imports` key of the different identifier `github.com/o/p-x`, because that
key starts with `github.com/o/p-`. -/
theorem ClearCache_counterexample :
    sampleRepo ≠ ⟨"github.com/o/p-x".toList, []⟩ ∧
    Repository.cacheKey ⟨"github.com/o/p-x".toList, []⟩ "imports".toList ∈
      DB.keys ⟨[(Repository.cacheKey ⟨"github.com/o/p-x".toList, []⟩ "imports".toList,
        "1".toList)], none, none⟩ ∧
    ∃ db', sampleRepo.ClearCache
        ⟨[(Repository.cacheKey ⟨"github.com/o/p-x".toList, []⟩ "imports".toList,
          "1".toList)], none, none⟩ = Except.ok db' ∧
      Repository.cacheKey ⟨"github.com/o/p-x".toList, []⟩ "imports".toList ∉ db'.keys := by
  refine ⟨by decide, by decide, ⟨[], none, none⟩, ?_, by decide⟩
  have hf : ([(Repository.cacheKey ⟨"github.com/o/p-x".toList, []⟩ "imports".toList,
      "1".toList)] : List (GoString × GoString)).filter
      (fun kv => !sampleRepo.keyStart.isPrefixOf kv.1) = [] := by decide
  simp only [Repository.ClearCache, DB.DeleteAllMatchingPrefix, hf]

/-- C5 (amended): a successful `ClearCache` for (`name`, `branch`) removes
exactly the entries whose key starts with `name-branch`: none of the
identifier's keys `name-branch-category` is present afterwards, every entry
whose key does not start with `name-branch` is still present with its value,
and nothing else is in the store.  Keys of another identifier survive unless
they start with `name-branch`. -/
theorem ClearCache_removes_keyStart (r : Repository) (db db' : DB)
    (h : r.ClearCache db = Except.ok db') :
    (∀ c, r.cacheKey c ∉ db'.keys) ∧
    (∀ kv ∈ db.entries, r.keyStart.isPrefixOf kv.1 = false → kv ∈ db'.entries) ∧
    (∀ kv ∈ db'.entries, kv ∈ db.entries ∧ r.keyStart.isPrefixOf kv.1 = false) := by
  have hdb' : db'.entries = db.entries.filter (fun kv => !r.keyStart.isPrefixOf kv.1) := by
    unfold Repository.ClearCache DB.DeleteAllMatchingPrefix at h
    cases hw : db.writeErr with
    | some e => simp [hw] at h
    | none =>
      simp only [hw, Except.ok.injEq] at h
      subst h
      rfl
  have hthird : ∀ kv ∈ db'.entries, kv ∈ db.entries ∧ r.keyStart.isPrefixOf kv.1 = false := by
    intro kv hkv
    rw [hdb'] at hkv
    obtain ⟨h1, h2⟩ := List.mem_filter.mp hkv
    exact ⟨h1, by simpa using h2⟩
  refine ⟨?_, ?_, hthird⟩
  · intro c hc
    obtain ⟨kv, hkv, hk⟩ := List.mem_map.mp hc
    have := (hthird kv hkv).2
    rw [hk, keyStart_isPrefixOf_cacheKey] at this
    exact absurd this (by simp)
  · intro kv hkv hpre
    rw [hdb']
    exact List.mem_filter.mpr ⟨hkv, by simp [hpre]⟩

/-- Witness for C5 (amended): clearing `github.com/o/p` in the sample store
leaves exactly the eight entries of `github.com/o/q`. -/
theorem ClearCache_removes_keyStart_witness :
    sampleRepo.ClearCache sampleStore = Except.ok
      ⟨Repository.fullEntries ⟨"github.com/o/q".toList, []⟩ "1".toList, none, none⟩ ∧
    (∀ c, sampleRepo.cacheKey c ∉
      DB.keys ⟨Repository.fullEntries ⟨"github.com/o/q".toList, []⟩ "1".toList, none, none⟩) := by
  have hf : sampleStore.entries.filter (fun kv => !sampleRepo.keyStart.isPrefixOf kv.1) =
      Repository.fullEntries ⟨"github.com/o/q".toList, []⟩ "1".toList := by decide
  have hrun : sampleRepo.ClearCache sampleStore = Except.ok
      ⟨Repository.fullEntries ⟨"github.com/o/q".toList, []⟩ "1".toList, none, none⟩ := by
    simp only [Repository.ClearCache, DB.DeleteAllMatchingPrefix, sampleStore] at hf ⊢
    rw [hf]
  exact ⟨hrun, (ClearCache_removes_keyStart sampleRepo sampleStore _ hrun).1⟩

/-! ### Envelope stripping -/

theorem Replace1_at_start (old t : GoString) (h : old ≠ []) :
    Replace1 old [] (old ++ t) = t := by
  cases old with
  | nil => exact absurd rfl h
  | cons c cs =>
    have hp : (c :: cs).isPrefixOf (c :: (cs ++ t)) = true :=
      List.isPrefixOf_iff_prefix.mpr ⟨t, rfl⟩
    show Replace1 (c :: cs) [] (c :: (cs ++ t)) = t
    rw [Replace1, if_pos hp]
    simp

theorem envelopeClose_no_border :
    ∀ k < 20, 0 < k → (envelopeClose.drop k).isPrefixOf envelopeClose = false := by
  decide

theorem envelopeClose_not_at (p : GoString) (hp : p ≠ [])
    (hno : ¬ envelopeClose <:+: p) :
    envelopeClose.isPrefixOf (p ++ envelopeClose) = false := by
  by_contra hcon
  have hpre : envelopeClose <+: p ++ envelopeClose :=
    List.isPrefixOf_iff_prefix.mp (by simpa using hcon)
  have hlen : envelopeClose.length = 20 := by decide
  have hpp : p <+: p ++ envelopeClose := ⟨_, rfl⟩
  rcases Nat.lt_or_ge p.length envelopeClose.length with hlt | hge
  · have hpm : p <+: envelopeClose :=
      List.prefix_of_prefix_length_le hpp hpre (Nat.le_of_lt hlt)
    obtain ⟨rest, hrest⟩ := hpm
    have hdrop : envelopeClose.drop p.length = rest := by
      rw [← hrest]; simp
    have hr : rest <+: envelopeClose := by
      have h2 : p ++ rest <+: p ++ envelopeClose := by rw [hrest]; exact hpre
      exact (List.prefix_append_right_inj p).mp h2
    have hpos : 0 < p.length := List.length_pos.mpr hp
    have hb := envelopeClose_no_border p.length (by omega) hpos
    rw [hdrop] at hb
    have := List.isPrefixOf_iff_prefix.mpr hr
    rw [hb] at this
    exact absurd this (by simp)
  · have hmp : envelopeClose <+: p := List.prefix_of_prefix_length_le hpre hpp hge
    exact hno hmp.isInfix

theorem Replace1_close_at_end (p : GoString) (hno : ¬ envelopeClose <:+: p) :
    Replace1 envelopeClose [] (p ++ envelopeClose) = p := by
  induction p with
  | nil =>
    have := Replace1_at_start envelopeClose [] (by decide)
    simpa using this
  | cons c cs ih =>
    have hnot := envelopeClose_not_at (c :: cs) (by simp) hno
    have hcs : ¬ envelopeClose <:+: cs := by
      intro hc
      exact hno (hc.trans (List.suffix_cons c cs).isInfix)
    show Replace1 envelopeClose [] (c :: (cs ++ envelopeClose)) = c :: cs
    rw [Replace1]
    have hnot2 : envelopeClose.isPrefixOf (c :: (cs ++ envelopeClose)) = false := hnot
    simp only [hnot2, Bool.false_eq_true, if_false]
    rw [ih hcs]

/-- C6 (code defect): the payload `{"a":{"b":1,"status":"success"},"c":2}`
holds the closing marker in its middle, so the second replacement cuts it out
of the payload instead of the envelope; the result is
`{"a":{"b":1,"c":2},"status":"success"}`. -/
theorem stripEnvelope_counterexample :
    stripEnvelope (envelopeOpen ++
        "\x7b\"a\":\x7b\"b\":1,\"status\":\"success\"\x7d,\"c\":2\x7d".toList ++ envelopeClose) =
      "\x7b\"a\":\x7b\"b\":1,\"c\":2\x7d,\"status\":\"success\"\x7d".toList ∧
    stripEnvelope (envelopeOpen ++
        "\x7b\"a\":\x7b\"b\":1,\"status\":\"success\"\x7d,\"c\":2\x7d".toList ++ envelopeClose) ≠
      "\x7b\"a\":\x7b\"b\":1,\"status\":\"success\"\x7d,\"c\":2\x7d".toList := by
  refine ⟨by decide, by decide⟩

/-- Supporting fact for C6: for every payload `p` that does not contain the closing
marker `,"status":"success"}`, `stripEnvelope` applied to `{"data":` followed
by `p` followed by `,"status":"success"}` returns exactly `p`. -/
theorem stripEnvelope_envelope (p : GoString) (hno : ¬ envelopeClose <:+: p) :
    stripEnvelope (envelopeOpen ++ p ++ envelopeClose) = p := by
  unfold stripEnvelope
  rw [List.append_assoc, Replace1_at_start envelopeOpen _ (by decide)]
  exact Replace1_close_at_end p hno

/-- Example for C6: the payload `["a","b"]` is returned as it is. -/
theorem stripEnvelope_envelope_example :
    stripEnvelope (envelopeOpen ++ "[\"a\",\"b\"]".toList ++ envelopeClose) =
      "[\"a\",\"b\"]".toList :=
  stripEnvelope_envelope "[\"a\",\"b\"]".toList (by decide)

/-! ### The rank cache -/

/-- C7 (code defect): `save` stores the rank letter as it is, while
`GetRankFromCache` gunzips what it reads.  For every repository, every
connection state without a transport error and every rank of one or two
characters, `GetRankFromCache` after `save` returns the error
`io.ErrUnexpectedEOF` of the gzip header read, not the rank. -/
theorem GetRankFromCache_after_save {T : Type} (env : RankEnv T) (rk : Rank T)
    (hash : GoString → GoString → Option GoString) (v : Int) (letter : Char)
    (sign : Option Char) :
    (Rank.save { rk with Score := ⟨v, letter :: sign.toList⟩ } ⟨hash, none⟩).1 = none ∧
    Rank.GetRankFromCache env { rk with Score := ⟨v, letter :: sign.toList⟩ }
      (Rank.save { rk with Score := ⟨v, letter :: sign.toList⟩ } ⟨hash, none⟩).2 =
        Except.error Err.unexpectedEOF := by
  cases sign <;>
    simp [Rank.save, Rank.GetRankFromCache, Conn.HSET, Conn.HGET, gzipDecode]

theorem loadDataLoop_missing {T : Type} (env : RankEnv T) (rk : Rank T) (c : Conn)
    (order : List GoString) (data : List (GoString × GoString))
    (habs : ∃ f ∈ order, c.hash rk.repository f = none) :
    ∃ e, Rank.loadDataLoop env rk c order data = Except.error e := by
  induction order generalizing data with
  | nil =>
    obtain ⟨f, hf, -⟩ := habs
    simp at hf
  | cons idfr rest ih =>
    unfold Rank.loadDataLoop
    cases hg : c.HGET rk.repository idfr with
    | mk o err =>
      cases o with
      | none => exact ⟨_, rfl⟩
      | some o =>
        cases err with
        | some e => exact ⟨_, rfl⟩
        | none =>
          cases hz : gzipDecode env.inflate o with
          | error e => exact ⟨e, by simp only [hz]⟩
          | ok b =>
            simp only [hz]
            apply ih
            obtain ⟨f, hf, hnone⟩ := habs
            rcases List.mem_cons.mp hf with h | h
            · subst h
              unfold Conn.HGET at hg
              cases hce : c.connErr with
              | some e => simp [hce] at hg
              | none =>
                simp only [hce, Prod.mk.injEq] at hg
                rw [hnone] at hg
                exact absurd hg.1 (by simp)
            · exact ⟨f, h, hnone⟩

theorem loadDataLoop_congr {T : Type} (env : RankEnv T) (rk : Rank T) (c c' : Conn)
    (order : List GoString) (data : List (GoString × GoString))
    (hconn : c'.connErr = c.connErr)
    (hsame : ∀ f ∈ order, c'.hash rk.repository f = c.hash rk.repository f) :
    Rank.loadDataLoop env rk c' order data = Rank.loadDataLoop env rk c order data := by
  induction order generalizing data with
  | nil => rfl
  | cons idfr rest ih =>
    have hg : c'.HGET rk.repository idfr = c.HGET rk.repository idfr := by
      unfold Conn.HGET
      rw [hconn, hsame idfr (List.mem_cons_self _ _)]
    unfold Rank.loadDataLoop
    rw [hg]
    cases c.HGET rk.repository idfr with
    | mk o err =>
      cases o with
      | none => rfl
      | some o =>
        cases err with
        | some e => rfl
        | none =>
          cases hz : gzipDecode env.inflate o with
          | error e => simp only [hz]
          | ok b =>
            simp only [hz]
            exact ih _ (fun f hf => hsame f (List.mem_cons_of_mem _ hf))

/-- C8: whatever order Go ranges over `required` in, when at least one of the
fields `loc`, `imports`, `test` of the repository is absent `loadData` returns
an error, and `GetScore` returns that error and leaves the connection state as
it was (no score is saved).  The result of `loadData` depends only on the
connection status and these three fields, so the absence of any other field,
lint data included, never causes an error. -/
theorem loadData_required {T : Type} (env : RankEnv T) (rk : Rank T) (c : Conn)
    (order : List GoString) (horder : order.Perm required) :
    ((∃ f ∈ required, c.hash rk.repository f = none) →
      ∃ e, rk.loadData env c order = Except.error e ∧
        rk.GetScore env c order = (Except.error e, c)) ∧
    (∀ c' : Conn, c'.connErr = c.connErr →
      (∀ f ∈ required, c'.hash rk.repository f = c.hash rk.repository f) →
      rk.loadData env c' order = rk.loadData env c order) := by
  constructor
  · rintro ⟨f, hf, hnone⟩
    obtain ⟨e, he⟩ := loadDataLoop_missing env rk c order [] ⟨f, horder.mem_iff.mpr hf, hnone⟩
    refine ⟨e, he, ?_⟩
    unfold Rank.GetScore Rank.loadData
    rw [he]
  · intro c' hconn hsame
    exact loadDataLoop_congr env rk c c' order [] hconn
      (fun f hf => hsame f (horder.mem_iff.mp hf))

/-- Witness for C8: with `loc` and `imports` present and `test` absent,
`loadData` and `GetScore` fail with `errMissingData` when the map is visited
in the order `test`, `loc`, `imports`. -/
theorem loadData_required_witness :
    ∃ e, sampleRank.loadData sampleEnv sampleConn
        ["test".toList, "loc".toList, "imports".toList] = Except.error e ∧
      sampleRank.GetScore sampleEnv sampleConn
        ["test".toList, "loc".toList, "imports".toList] = (Except.error e, sampleConn) :=
  (loadData_required sampleEnv sampleRank sampleConn
    ["test".toList, "loc".toList, "imports".toList] (by decide)).1
    ⟨"test".toList, by decide, by decide⟩

/-! ### Load -/

theorem Load_eq_runGetters {σ : Type} (get : Getter → σ → Option Err × σ) (w : Traced σ) :
    Load get w = runGetters get loadOrder w := rfl

theorem runGetters_first_error {σ : Type} (get : Getter → σ → Option Err × σ)
    (gs : List Getter) (w : Traced σ) (k : Nat) (g : Getter) (e : Err)
    (hg : gs[k]? = some g)
    (hbefore : ∀ i h, i < k → gs[i]? = some h →
      (get h (stateAfter get (gs.take i) w.state)).1 = none)
    (herr : (get g (stateAfter get (gs.take k) w.state)).1 = some e) :
    runGetters get gs w =
      (some e, ⟨stateAfter get (gs.take (k + 1)) w.state, w.calls ++ gs.take (k + 1)⟩) := by
  induction gs generalizing w k with
  | nil => simp at hg
  | cons a t ih =>
    cases k with
    | zero =>
      have hga : a = g := by simpa using hg
      subst hga
      have herr2 : (get a w.state).1 = some e := by simpa [stateAfter] using herr
      simp [runGetters, callGetter, herr2, stateAfter]
    | succ k =>
      have h0 : (get a w.state).1 = none := by
        have := hbefore 0 a (Nat.succ_pos k) (by simp)
        simpa [stateAfter] using this
      have hg2 : t[k]? = some g := by simpa using hg
      have := ih ⟨(get a w.state).2, w.calls ++ [a]⟩ k hg2
        (fun i h hi hih => by
          have := hbefore (i + 1) h (Nat.succ_lt_succ hi) (by simpa using hih)
          simpa [stateAfter] using this)
        (by simpa [stateAfter] using herr)
      simp only [runGetters, callGetter, h0]
      rw [this]
      simp [stateAfter]

theorem runGetters_ok_iff {σ : Type} (get : Getter → σ → Option Err × σ)
    (gs : List Getter) (w : Traced σ) :
    (runGetters get gs w).1 = none ↔
      ∀ i h, gs[i]? = some h → (get h (stateAfter get (gs.take i) w.state)).1 = none := by
  induction gs generalizing w with
  | nil => simp [runGetters]
  | cons a t ih =>
    cases h0 : (get a w.state).1 with
    | some e =>
      simp only [runGetters, callGetter, h0]
      constructor
      · intro hc
        exact absurd hc (by simp)
      · intro hall
        have := hall 0 a (by simp)
        rw [show stateAfter get ((a :: t).take 0) w.state = w.state from rfl, h0] at this
        exact absurd this (by simp)
    | none =>
      simp only [runGetters, callGetter, h0]
      rw [ih]
      constructor
      · intro hall i h hih
        cases i with
        | zero =>
          have : a = h := by simpa using hih
          subst this
          simpa [stateAfter] using h0
        | succ i =>
          have := hall i h (by simpa using hih)
          simpa [stateAfter] using this
      · intro hall i h hih
        have := hall (i + 1) h (by simpa using hih)
        simpa [stateAfter] using this

theorem runGetters_ok_calls {σ : Type} (get : Getter → σ → Option Err × σ)
    (gs : List Getter) (w : Traced σ) (hok : (runGetters get gs w).1 = none) :
    (runGetters get gs w).2.calls = w.calls ++ gs := by
  induction gs generalizing w with
  | nil => simp [runGetters]
  | cons a t ih =>
    cases h0 : (get a w.state).1 with
    | some e =>
      simp [runGetters, callGetter, h0] at hok
    | none =>
      simp only [runGetters, callGetter, h0] at hok ⊢
      rw [ih _ hok]
      simp

/-- C9: `Load` calls the getters in the order Imports, CodeStats,
LintMessages, TestResults, Score, Metadata, LastUpdate, ExecutionTime and
fails fast.  If the getter at position `k` of that order is the first to
return an error, `Load` returns exactly that error and the calls made are the
first `k + 1` getters of the order, so none of the later ones is invoked;
`Load` returns no error iff all eight getters succeed, and then all eight were
called in that order. -/
theorem Load_fail_fast {σ : Type} (get : Getter → σ → Option Err × σ) (s : σ) :
    (∀ k g e, loadOrder[k]? = some g →
      (∀ i h, i < k → loadOrder[i]? = some h →
        (get h (stateAfter get (loadOrder.take i) s)).1 = none) →
      (get g (stateAfter get (loadOrder.take k) s)).1 = some e →
      Load get ⟨s, []⟩ =
        (some e, ⟨stateAfter get (loadOrder.take (k + 1)) s, loadOrder.take (k + 1)⟩)) ∧
    ((Load get ⟨s, []⟩).1 = none ↔
      ∀ i h, loadOrder[i]? = some h →
        (get h (stateAfter get (loadOrder.take i) s)).1 = none) ∧
    ((Load get ⟨s, []⟩).1 = none → (Load get ⟨s, []⟩).2.calls = loadOrder) := by
  refine ⟨?_, ?_, ?_⟩
  · intro k g e hg hbefore herr
    rw [Load_eq_runGetters]
    have := runGetters_first_error get loadOrder ⟨s, []⟩ k g e hg hbefore herr
    simpa using this
  · rw [Load_eq_runGetters]
    exact runGetters_ok_iff get loadOrder ⟨s, []⟩
  · intro hok
    rw [Load_eq_runGetters] at hok ⊢
    have := runGetters_ok_calls get loadOrder ⟨s, []⟩ hok
    simpa using this

/-- Witness for C9: when `GetLintMessages` is the first getter to fail, `Load`
returns its error after exactly three calls. -/
theorem Load_fail_fast_witness :
    Load sampleGet ⟨0, []⟩ = (some (Err.other "lint"),
      ⟨3, [Getter.GetImports, Getter.GetCodeStats, Getter.GetLintMessages]⟩) := by
  have h := (Load_fail_fast sampleGet 0).1 2 Getter.GetLintMessages (Err.other "lint") rfl
    (by
      intro i h hi hih
      have hi2 : i = 0 ∨ i = 1 := by omega
      rcases hi2 with rfl | rfl
      · have : h = Getter.GetImports := by simpa [loadOrder] using hih.symm
        subst this
        rfl
      · have : h = Getter.GetCodeStats := by simpa [loadOrder] using hih.symm
        subst this
        rfl)
    rfl
  exact h

/-! ### RunAll -/

/-- C10 (code defect): with the five-minute bound (300 s), let `GetImports`
return after 301 s and the other getters after 10 s.  `imports` is recorded
as timed out, and its late value is then received by the iteration of
`codestats`; every later category gets the value of its predecessor:
`codestats` holds the imports value, `testresults` the codestats value,
`lintmessages` the testresults value, and no entry is the category's own
outcome. -/
theorem RunAll_late_result :
    (RunAll 300 lateImports handlerTypes).1.output =
      [("imports".toList, Out.error Err.errRoutineTimeout),
       ("codestats".toList, Out.value "I".toList),
       ("testresults".toList, Out.value "C".toList),
       ("lintmessages".toList, Out.value "T".toList)] ∧
    outputAt (RunAll 300 lateImports handlerTypes).1.output "codestats".toList ≠
      some (ownOutcome 300 lateImports "codestats".toList) ∧
    (RunAll 300 lateImports handlerTypes).2 = false := by
  refine ⟨by decide, by decide, by decide⟩

theorem outputAt_mapSet (m : List (GoString × Out)) (k : GoString) (v : Out) (k' : GoString) :
    outputAt (mapSet m k v) k' = if k' = k then some v else outputAt m k' := by
  induction m with
  | nil =>
    by_cases h : k' = k
    · subst h; simp [mapSet, outputAt]
    · have h2 : ¬ k = k' := fun hc => h hc.symm
      simp [mapSet, outputAt, h, h2]
  | cons hd tl ih =>
    obtain ⟨a, b⟩ := hd
    unfold mapSet
    by_cases ha : a = k
    · subst ha
      by_cases h : k' = a
      · subst h; simp [outputAt]
      · have h2 : ¬ a = k' := fun hc => h hc.symm
        simp [outputAt, h, h2]
    · simp only [ha, if_false]
      by_cases hak : a = k'
      · subst hak
        have h2 : ¬ a = k := ha
        simp [outputAt, h2]
      · have e1 : outputAt ((a, b) :: mapSet tl k v) k' = outputAt (mapSet tl k v) k' := by
          simp [outputAt, hak]
        have e2 : outputAt ((a, b) :: tl) k' = outputAt tl k' := by
          simp [outputAt, hak]
        rw [e1, e2, ih]

theorem runOne_empty_channel (bound : Nat) (p : Producers) (rc : Checker) (tp : GoString)
    (hdata : rc.data = [])
    (hno : ∀ d o, worker p tp = some (d, o) → d < bound) :
    (runOne bound p rc tp).data = [] ∧
    (runOne bound p rc tp).output = mapSet rc.output tp (ownOutcome bound p tp) := by
  unfold runOne ownOutcome
  cases hw : worker p tp with
  | none => simp [hdata, popEarliest]
  | some r =>
    obtain ⟨d, o⟩ := r
    have hd : d < bound := hno d o hw
    cases o <;> simp [hdata, popEarliest, hd]

theorem foldl_runOne_output (bound : Nat) (p : Producers) (types : List GoString)
    (rc : Checker) (hdata : rc.data = [])
    (hno : ∀ tp ∈ types, ∀ d o, worker p tp = some (d, o) → d < bound) (tp : GoString) :
    outputAt (types.foldl (runOne bound p) rc).output tp =
      if tp ∈ types then some (ownOutcome bound p tp) else outputAt rc.output tp := by
  induction types generalizing rc with
  | nil => simp
  | cons a t ih =>
    obtain ⟨h1, h2⟩ := runOne_empty_channel bound p rc a hdata
      (hno a (List.mem_cons_self _ _))
    rw [List.foldl_cons, ih (runOne bound p rc a) h1
      (fun x hx => hno x (List.mem_cons_of_mem _ hx)), h2, outputAt_mapSet]
    by_cases ht : tp ∈ t
    · simp [ht]
    · by_cases hta : tp = a
      · subst hta; simp
      · simp [ht, hta]

/-- Supporting fact for C10: when no getter returns late, that is every getter
either returns before the wait bound or never returns, `RunAll` records under
each requested category that category's own outcome. -/
theorem RunAll_own_outcome (bound : Nat) (p : Producers) (types : List GoString)
    (hno : ∀ tp ∈ types, ∀ d o, worker p tp = some (d, o) → d < bound)
    (tp : GoString) (htp : tp ∈ types) :
    outputAt (RunAll bound p types).1.output tp = some (ownOutcome bound p tp) := by
  unfold RunAll
  simp only
  rw [foldl_runOne_output bound p types ⟨0, [], [], 0⟩ rfl hno tp, if_pos htp]

/-! ### Category getters -/

/-- C1: on the cache-miss path of `GetImports`, for every list of imports the
producer returns and whatever order Go ranges over the map in, the list the
getter assigns to the record and returns (it is returned whenever persisting
succeeds, and nothing else is ever returned) has no duplicates and its
elements are exactly the normalised inputs `norm im`; for the three imports
`host.com/org/a/sub1`, `host.com/org/a/sub2`, `other.com/pkg` it is a
rearrangement of the two entries `host.com/org/a`, `other.com/pkg`. -/
theorem GetImports_dedup {CS TR LM : Type} (env : GetterEnv CS TR LM) (r : Record CS TR LM)
    (imports : List GoString)
    (hrange : ∀ m, MapRange m (env.rangeKeys m))
    (hmiss : r.getCachedData ImportsName = Except.ok none)
    (hprod : env.lambdaGetImports r.id.Name = Except.ok imports) :
    ∃ out, (r.GetImports env).2.Imports = some out ∧
      (∀ v, (r.GetImports env).1 = Except.ok v → v = out) ∧
      (∀ b, env.marshalImports out = Except.ok b → r.db.writeErr = none →
        (r.GetImports env).1 = Except.ok out) ∧
      out.Nodup ∧ (∀ x, x ∈ out ↔ ∃ im ∈ imports, x = norm im) ∧
      (imports = ["host.com/org/a/sub1".toList, "host.com/org/a/sub2".toList,
          "other.com/pkg".toList] →
        out.Perm ["host.com/org/a".toList, "other.com/pkg".toList] ∧ out.length = 2) := by
  obtain ⟨hnd, hmem, hex⟩ := IsDedupedImports_spec imports
    (env.rangeKeys (filteredImports imports)) (hrange _)
  refine ⟨env.rangeKeys (filteredImports imports), ?_, ?_, ?_, hnd, hmem, hex⟩
  · cases hm : env.marshalImports (env.rangeKeys (filteredImports imports)) with
    | error e => simp only [Record.GetImports, hmiss, hprod, Record.cacheData, hm]
    | ok b =>
      cases hw : r.db.writeErr with
      | some e => simp only [Record.GetImports, hmiss, hprod, Record.cacheData, hm, DB.Save, hw]
      | none => simp only [Record.GetImports, hmiss, hprod, Record.cacheData, hm, DB.Save, hw]
  · intro v hv
    cases hm : env.marshalImports (env.rangeKeys (filteredImports imports)) with
    | error e =>
      simp only [Record.GetImports, hmiss, hprod, Record.cacheData, hm] at hv
      exact absurd hv (by simp)
    | ok b =>
      cases hw : r.db.writeErr with
      | some e =>
        simp only [Record.GetImports, hmiss, hprod, Record.cacheData, hm, DB.Save, hw] at hv
        exact absurd hv (by simp)
      | none =>
        simp only [Record.GetImports, hmiss, hprod, Record.cacheData, hm, DB.Save, hw,
          Except.ok.injEq] at hv
        exact hv.symm
  · intro b hm hw
    simp only [Record.GetImports, hmiss, hprod, Record.cacheData, hm, DB.Save, hw]

/-- Witness for C1: the spec's three imports on an empty store, with the map
ranged over in the reverse of the insertion order. -/
theorem GetImports_dedup_witness :
    ∃ out, (emptyRecord.GetImports (importsEnv
        ["host.com/org/a/sub1".toList, "host.com/org/a/sub2".toList, "other.com/pkg".toList]
        (fun m => (mapKeys m).reverse))).1 = Except.ok out ∧
      out.Perm ["host.com/org/a".toList, "other.com/pkg".toList] ∧ out.length = 2 := by
  obtain ⟨out, -, -, h3, -, -, h6⟩ := GetImports_dedup (importsEnv
      ["host.com/org/a/sub1".toList, "host.com/org/a/sub2".toList, "other.com/pkg".toList]
      (fun m => (mapKeys m).reverse)) emptyRecord
    ["host.com/org/a/sub1".toList, "host.com/org/a/sub2".toList, "other.com/pkg".toList]
    (fun m => List.reverse_perm (mapKeys m)) (by decide) rfl
  exact ⟨out, h3 "7".toList rfl rfl, h6 rfl⟩

/-- C2 (code defect): on a cache miss where the producer returns
`my-host.com/org/a/sub1` and `my-host.com/org/a/sub2`, two imports of one
repository that share their first three segments, `GetImports` returns both
of them, in either iteration order of the map: the pattern does not match a
host with a hyphen, so nothing collapses. -/
theorem GetImports_hyphen_host :
    HasFirstSegments "my-host.com/org/a/sub1".toList "my-host.com".toList "org".toList "a".toList ∧
    HasFirstSegments "my-host.com/org/a/sub2".toList "my-host.com".toList "org".toList "a".toList ∧
    (emptyRecord.GetImports (importsEnv
        ["my-host.com/org/a/sub1".toList, "my-host.com/org/a/sub2".toList] mapKeys)).1 =
      Except.ok ["my-host.com/org/a/sub1".toList, "my-host.com/org/a/sub2".toList] ∧
    (emptyRecord.GetImports (importsEnv
        ["my-host.com/org/a/sub1".toList, "my-host.com/org/a/sub2".toList]
        (fun m => (mapKeys m).reverse))).1 =
      Except.ok ["my-host.com/org/a/sub2".toList, "my-host.com/org/a/sub1".toList] := by
  refine ⟨⟨by decide, by decide, by decide, "/sub1".toList, Or.inr rfl, by decide⟩,
    ⟨by decide, by decide, by decide, "/sub2".toList, Or.inr rfl, by decide⟩,
    by decide, by decide⟩

/-- C12 (as stated) fails: with undecodable bytes under the `codestats` and
`imports` keys and producers that would return fresh values, `GetCodeStats`
and `GetImports` return the decoding error and call no producer; the imports
field is left half-decoded. -/
theorem getters_corrupt_cache_counterexample :
    corruptRecord.getCachedData CodeStatsName = Except.ok (some "?".toList) ∧
    sampleGetterEnv.unmarshalCodeStats "?".toList corruptRecord.CodeStats =
      Except.error (Err.other "invalid character", none) ∧
    sampleGetterEnv.lambdaGetCodeStats corruptRecord.id.Name = Except.ok 7 ∧
    (corruptRecord.GetCodeStats sampleGetterEnv).1 =
      Except.error (Err.other "invalid character") ∧
    (corruptRecord.GetCodeStats sampleGetterEnv).2.fetched = [] ∧
    (corruptRecord.GetImports sampleGetterEnv).1 =
      Except.error (Err.other "cannot unmarshal number into Go value of type string") ∧
    (corruptRecord.GetImports sampleGetterEnv).2.fetched = [] ∧
    (corruptRecord.GetImports sampleGetterEnv).2.Imports =
      some ["a".toList, [], "b".toList] := by
  refine ⟨by decide, by decide, rfl, by decide, by decide, by decide, by decide, by decide⟩

/-- C12 (amended): for each of `GetImports`, `GetCodeStats`, `GetTestResults`
and `GetLintMessages`, when the store holds bytes under the category's key
that do not decode, the getter returns the decoding error and calls no
producer; the store, the log of producer calls and every other field of the
record are as they were, and the category's own field holds what the decoder
left in it. -/
theorem getters_corrupt_cache {CS TR LM : Type} (env : GetterEnv CS TR LM)
    (r : Record CS TR LM) (linters : List GoString) :
    (∀ data e field, r.getCachedData ImportsName = Except.ok (some data) →
      env.unmarshalImports data r.Imports = Except.error (e, field) →
      r.GetImports env = (Except.error e, { r with Imports := field })) ∧
    (∀ data e field, r.getCachedData CodeStatsName = Except.ok (some data) →
      env.unmarshalCodeStats data r.CodeStats = Except.error (e, field) →
      r.GetCodeStats env = (Except.error e, { r with CodeStats := field })) ∧
    (∀ data e field, r.getCachedData TestResultsName = Except.ok (some data) →
      env.unmarshalTestResults data r.TestResults = Except.error (e, field) →
      r.GetTestResults env = (Except.error e, { r with TestResults := field })) ∧
    (∀ data e field, r.getCachedData LintMessagesName = Except.ok (some data) →
      env.unmarshalLintMessages data r.LintMessages = Except.error (e, field) →
      r.GetLintMessages env linters = (Except.error e, { r with LintMessages := field })) := by
  refine ⟨?_, ?_, ?_, ?_⟩
  · intro data e field h1 h2
    simp only [Record.GetImports, h1, h2]
  · intro data e field h1 h2
    simp only [Record.GetCodeStats, h1, h2]
  · intro data e field h1 h2
    simp only [Record.GetTestResults, h1, h2]
  · intro data e field h1 h2
    simp only [Record.GetLintMessages, h1, h2]

/-- Witness for C12 (amended): the sample record, whose `imports` bytes hold a
number among the strings. -/
theorem getters_corrupt_cache_witness :
    corruptRecord.GetImports sampleGetterEnv =
      (Except.error (Err.other "cannot unmarshal number into Go value of type string"),
        { corruptRecord with Imports := some ["a".toList, [], "b".toList] }) :=
  (getters_corrupt_cache sampleGetterEnv corruptRecord []).1 "[\"a\",1,\"b\"]".toList
    (Err.other "cannot unmarshal number into Go value of type string")
    (some ["a".toList, [], "b".toList]) (by decide) (by decide)

/-- C13 (as stated) fails: on a cache miss with a producer that returns 7 and
a store that cannot be written, `GetCodeStats` returns the write error and no
value, although the record holds the fresh value in memory. -/
theorem getters_write_failure_counterexample :
    readOnlyRecord.getCachedData CodeStatsName = Except.ok none ∧
    sampleGetterEnv.lambdaGetCodeStats readOnlyRecord.id.Name = Except.ok 7 ∧
    (readOnlyRecord.GetCodeStats sampleGetterEnv).1 = Except.error (Err.other "disk full") ∧
    (readOnlyRecord.GetCodeStats sampleGetterEnv).1 ≠ Except.ok 7 ∧
    (readOnlyRecord.GetCodeStats sampleGetterEnv).2.CodeStats = some 7 := by
  refine ⟨by decide, rfl, by decide, by decide, by decide⟩

/-- C13 (amended): for each of `GetImports`, `GetCodeStats`, `GetTestResults`
and `GetLintMessages`, on a cache miss where the producer succeeds with value
`v` but persisting it fails, the getter returns the persisting error and no
value; the record keeps `v` (for imports: the deduplicated list) in its field,
the producer call is logged and the store is unchanged. -/
theorem getters_write_failure {CS TR LM : Type} (env : GetterEnv CS TR LM)
    (r : Record CS TR LM) (linters : List GoString) :
    (∀ v b e, r.getCachedData ImportsName = Except.ok none →
      env.lambdaGetImports r.id.Name = Except.ok v →
      env.marshalImports (env.rangeKeys (filteredImports v)) = Except.ok b →
      r.db.writeErr = some e →
      r.GetImports env = (Except.error e,
        { r with Imports := some (env.rangeKeys (filteredImports v)),
                 fetched := r.fetched ++ [ImportsName] })) ∧
    (∀ v b e, r.getCachedData CodeStatsName = Except.ok none →
      env.lambdaGetCodeStats r.id.Name = Except.ok v →
      env.marshalCodeStats v = Except.ok b →
      r.db.writeErr = some e →
      r.GetCodeStats env = (Except.error e,
        { r with CodeStats := some v, fetched := r.fetched ++ [CodeStatsName] })) ∧
    (∀ v b e, r.getCachedData TestResultsName = Except.ok none →
      env.lambdaGetTestResults r.id.Name = Except.ok v →
      env.marshalTestResults v = Except.ok b →
      r.db.writeErr = some e →
      r.GetTestResults env = (Except.error e,
        { r with TestResults := some v, fetched := r.fetched ++ [TestResultsName] })) ∧
    (∀ v b e, r.getCachedData LintMessagesName = Except.ok none →
      env.lambdaGetLintMessages r.id.Name linters = Except.ok v →
      env.marshalLintMessages v = Except.ok b →
      r.db.writeErr = some e →
      r.GetLintMessages env linters = (Except.error e,
        { r with LintMessages := some v, fetched := r.fetched ++ [LintMessagesName] })) := by
  refine ⟨?_, ?_, ?_, ?_⟩
  · intro v b e h1 h2 h3 h4
    simp only [Record.GetImports, h1, h2, h3, Record.cacheData, DB.Save, h4]
  · intro v b e h1 h2 h3 h4
    simp only [Record.GetCodeStats, h1, h2, h3, Record.cacheData, DB.Save, h4]
  · intro v b e h1 h2 h3 h4
    simp only [Record.GetTestResults, h1, h2, h3, Record.cacheData, DB.Save, h4]
  · intro v b e h1 h2 h3 h4
    simp only [Record.GetLintMessages, h1, h2, h3, Record.cacheData, DB.Save, h4]

/-- Witness for C13 (amended): the sample record whose store cannot be
written. -/
theorem getters_write_failure_witness :
    readOnlyRecord.GetCodeStats sampleGetterEnv =
      (Except.error (Err.other "disk full"),
        { readOnlyRecord with CodeStats := some 7,
                              fetched := readOnlyRecord.fetched ++ [CodeStatsName] }) :=
  (getters_write_failure sampleGetterEnv readOnlyRecord []).2.1 7 "7".toList
    (Err.other "disk full") (by decide) rfl rfl rfl

/-! ### The project handler -/

theorem runOne_i_le (bound : Nat) (p : Producers) (rc : Checker) (tp : GoString) :
    (runOne bound p rc tp).i ≤ rc.i + 1 := by
  unfold runOne
  simp only
  split
  · split
    · split <;> simp
    · simp
  · simp

theorem foldl_runOne_i_le (bound : Nat) (p : Producers) (types : List GoString)
    (rc : Checker) : (types.foldl (runOne bound p) rc).i ≤ rc.i + types.length := by
  induction types generalizing rc with
  | nil => simp
  | cons a t ih =>
    have h1 := ih (runOne bound p rc a)
    have h2 := runOne_i_le bound p rc a
    simp only [List.foldl_cons, List.length_cons]
    omega

theorem runOne_obtained (bound : Nat) (p : Producers) (rc : Checker) (tp : GoString)
    (hdata : rc.data = []) :
    (obtained bound p tp = true →
      (runOne bound p rc tp).i = rc.i + 1 ∧ (runOne bound p rc tp).data = []) ∧
    (obtained bound p tp = false → (runOne bound p rc tp).i = rc.i) := by
  unfold runOne obtained
  cases hw : worker p tp with
  | none => simp [hdata, popEarliest]
  | some r =>
    obtain ⟨d, o⟩ := r
    by_cases hd : d < bound
    · cases o <;> simp [hdata, popEarliest, hd]
    · cases o <;> simp [hdata, popEarliest, hd]

theorem foldl_runOne_loaded (bound : Nat) (p : Producers) (types : List GoString)
    (rc : Checker) (hdata : rc.data = []) :
    (types.foldl (runOne bound p) rc).i = rc.i + types.length ↔
      types.all (obtained bound p) = true := by
  induction types generalizing rc with
  | nil => simp
  | cons a t ih =>
    obtain ⟨hyes, hno⟩ := runOne_obtained bound p rc a hdata
    simp only [List.foldl_cons, List.length_cons, List.all_cons, Bool.and_eq_true]
    cases ha : obtained bound p a with
    | false =>
      have h1 := hno ha
      have h2 := foldl_runOne_i_le bound p t (runOne bound p rc a)
      constructor
      · intro h
        omega
      · intro h
        exact absurd h.1 (by simp)
    | true =>
      obtain ⟨h1, h2⟩ := hyes ha
      have h3 := ih (runOne bound p rc a) h2
      rw [h1] at h3
      constructor
      · intro h
        exact ⟨rfl, h3.mp (by omega)⟩
      · intro h
        have := h3.mpr h.2
        omega

theorem RunAll_loaded (bound : Nat) (p : Producers) (types : List GoString) :
    (RunAll bound p types).2 = types.all (obtained bound p) := by
  have h := foldl_runOne_loaded bound p types ⟨0, [], [], 0⟩ rfl
  simp only [Nat.zero_add] at h
  unfold RunAll
  simp only
  cases hall : types.all (obtained bound p) with
  | true => simpa using h.mpr hall
  | false =>
    have hne : ¬ (types.foldl (runOne bound p) ⟨0, [], [], 0⟩).i = types.length := by
      intro hc
      have := h.mp hc
      rw [hall] at this
      exact absurd this (by simp)
    simpa using hne

/-- Supporting fact for C11: the handler gets past `<-rc.dataLoaded`, and so
calls `GetScore` and produces its output map, exactly when all four primary
categories are obtained successfully; the map then holds the result of
`GetScore` under `score`. -/
theorem repositoryHandler_responds_iff (bound : Nat) (p : Producers)
    (score date executionTime : Except Err GoString) :
    (repositoryHandler bound p score date executionTime).isSome =
      handlerTypes.all (obtained bound p) ∧
    ∀ out, repositoryHandler bound p score date executionTime = some out →
      outputAt out "score".toList = some (recordResult score) := by
  have hl := RunAll_loaded bound p handlerTypes
  unfold repositoryHandler
  cases hr : RunAll bound p handlerTypes with
  | mk rc loaded =>
    rw [hr] at hl
    simp only at hl
    cases loaded with
    | false =>
      refine ⟨by simpa using hl, ?_⟩
      intro out hout
      simp at hout
    | true =>
      refine ⟨by simpa using hl, ?_⟩
      intro out hout
      simp only [Option.some.injEq] at hout
      subst hout
      rw [outputAt_mapSet, outputAt_mapSet, outputAt_mapSet]
      have h1 : ¬ ("score".toList = "executionTime".toList) := by decide
      have h2 : ¬ ("score".toList = "date".toList) := by decide
      simp [h1, h2]

/-- C11 (code defect): when `GetTestResults` returns an error, or when
`GetLintMessages` never returns, `RunAll` records the error or the timeout
under that category but sends nothing on `rc.dataLoaded`, so
`repositoryHandler` never gets past `<-rc.dataLoaded`: it produces no output
map and records nothing under `score`.  When all four categories are obtained
the handler responds, with the result of `GetScore` under `score`. -/
theorem repositoryHandler_blocks (score date executionTime : Except Err GoString) :
    outputAt (RunAll 300 failingTests handlerTypes).1.output "testresults".toList =
      some (Out.error (Err.other "transport")) ∧
    repositoryHandler 300 failingTests score date executionTime = none ∧
    outputAt (RunAll 300 stuckLint handlerTypes).1.output "lintmessages".toList =
      some (Out.error Err.errRoutineTimeout) ∧
    repositoryHandler 300 stuckLint score date executionTime = none ∧
    (repositoryHandler 300 allInTime score date executionTime).map
      (fun out => outputAt out "score".toList) = some (some (recordResult score)) := by
  have e1 : (RunAll 300 failingTests handlerTypes).2 = false := by decide
  have e2 : (RunAll 300 stuckLint handlerTypes).2 = false := by decide
  have e3 : (RunAll 300 allInTime handlerTypes).2 = true := by decide
  refine ⟨by decide, ?_, by decide, ?_, ?_⟩
  · unfold repositoryHandler
    cases hr : RunAll 300 failingTests handlerTypes with
    | mk rc loaded =>
      rw [hr] at e1
      simp only at e1
      subst e1
      rfl
  · unfold repositoryHandler
    cases hr : RunAll 300 stuckLint handlerTypes with
    | mk rc loaded =>
      rw [hr] at e2
      simp only at e2
      subst e2
      rfl
  · unfold repositoryHandler
    cases hr : RunAll 300 allInTime handlerTypes with
    | mk rc loaded =>
      rw [hr] at e3
      simp only at e3
      subst e3
      simp only [Option.map_some', Option.some.injEq]
      rw [outputAt_mapSet, outputAt_mapSet, outputAt_mapSet]
      have h1 : ¬ ("score".toList = "executionTime".toList) := by decide
      have h2 : ¬ ("score".toList = "date".toList) := by decide
      simp [h1, h2]

end Exago
